import Mathlib

/-!
Verification development for the terraform_architecture_diagram_draw repository.

The repository contains several script variants; the core logic in each variant
is a pipeline of pure functions over configuration text:

  raw text → structured (hcl2) or lexical (regex) extraction → resource inventory
           → resource classifier → categorized sets → topology synthesizer → graph.

We shallow-embed those functions here.  Strings are modelled as `List Char`
(`Str`), scanned exactly as Python's `re` module scans the source patterns
(leftmost, non-overlapping matches; greedy character classes).  The external
hcl2 library call is modelled by an `Option` parameter: `none` stands for the
library raising an exception, `some parsed` for a successful parse of the
`resource` section.  File and network I/O, repository cloning and image
rendering are glue outside the embedded core, as are the `diagrams` node
classes (a node is modelled by its category tag and its label).

Naming: namespaces `TF00`, `TF01`, `TF03`, `TF04` hold the embeddings of
`terraform_architecture_diagram_draw_00.py` … `_04.py` respectively, with the
source function names kept.
-/

set_option maxRecDepth 8000

/-- Configuration text and identifiers, modelled as lists of characters. -/
abbrev Str := List Char

/-- Convert a Lean string literal to the `Str` model. -/
def str (s : String) : Str := s.toList

/-- The opening-brace character of a block declaration. -/
def lbraceChar : Char := Char.ofNat 123

/-- The closing-brace character of a block declaration. -/
def rbraceChar : Char := Char.ofNat 125

/-- Python's `\s` class restricted to ASCII: space, tab, newline, carriage
return, vertical tab, form feed. -/
def isSpaceChar (c : Char) : Bool :=
  c = ' ' || c = '\t' || c = '\n' || c = '\r' || c = Char.ofNat 11 || c = Char.ofNat 12

/-- Attribute configuration of a declaration.  Attribute values are opaque to
the whole pipeline (no variant ever inspects them), so an ordered association
list of opaque strings is a faithful model. -/
abbrev Config := List (Str × Str)

/-- A resource declaration as built by the flat-inventory variants (files 00
and 01): a dict with keys `type`, `name`, `config`. -/
structure Resource where
  type : Str
  name : Str
  config : Config
  deriving DecidableEq, Repr

/-! ### Comment stripping (files 00 and 01)

`re.sub(r'#.*$', '', content, flags=re.MULTILINE)` removes, on every line,
everything from the first `#` to the end of the line.
`re.sub(r'/\*.*?\*/', '', content, flags=re.DOTALL)` removes each
leftmost-first, non-overlapping block comment `/* ... */` (non-greedy: up to
the nearest `*/`); an unterminated `/*` matches nothing.
`re.sub(r'//.*$', '', content, flags=re.MULTILINE)` (file 01 only) removes,
on every line, everything from the first `//` to the end of the line. -/

/-- State machine for the `#.*$` substitution: the flag records whether the
scan is inside a line comment (reset at each newline). -/
def stripLineAux : List Char → Bool → List Char
  | [], _ => []
  | c :: rest, inComment =>
    if c = '\n' then c :: stripLineAux rest false
    else if inComment then stripLineAux rest true
    else if c = '#' then stripLineAux rest true
    else c :: stripLineAux rest false

/-- Remove `#`-to-end-of-line comments. -/
def stripLineComments (content : Str) : Str := stripLineAux content false

/-- State machine for the `//.*$` substitution (file 01). -/
def stripSlashAux : List Char → Bool → List Char
  | [], _ => []
  | [c], inComment =>
    if c = '\n' then [c] else if inComment then [] else [c]
  | c :: d :: rest, inComment =>
    if c = '\n' then c :: stripSlashAux (d :: rest) false
    else if inComment then stripSlashAux (d :: rest) true
    else if c = '/' && d = '/' then stripSlashAux rest true
    else c :: stripSlashAux (d :: rest) false

/-- Remove `//`-to-end-of-line comments. -/
def stripSlashComments (content : Str) : Str := stripSlashAux content false

/-- Position after the first occurrence of `*/`, if any. -/
def findClose : List Char → Option (List Char)
  | [] => none
  | [_] => none
  | a :: b :: rest => if a = '*' && b = '/' then some rest else findClose (b :: rest)

/-- One fuel unit is spent per emitted character or removed comment, so fuel
equal to the input length always suffices; the fuel only makes the recursion
structural. On `/*` with no later `*/` the remainder is emitted unchanged
(no later position can start a match either, since no `*/` remains). -/
def stripBlockFuel : Nat → List Char → List Char
  | 0, l => l
  | _ + 1, [] => []
  | fuel + 1, c :: rest =>
    match rest with
    | [] => [c]
    | d :: rest2 =>
      if c = '/' ∧ d = '*' then
        match findClose rest2 with
        | some rest3 => stripBlockFuel fuel rest3
        | none => c :: d :: rest2
      else c :: stripBlockFuel fuel (d :: rest2)

/-- Remove non-greedy block comments `/* ... */`. -/
def stripBlockComments (content : Str) : Str := stripBlockFuel content.length content

/-! ### Regex scanning

All declaration patterns in the sources have the shape
`keyword \s+ "…" (\s+ "…")? \s* LBRACE` built from the pieces below.  Each
piece is deterministic: a greedy `\s+`/`[^"]+` run followed by a character the
run cannot contain never needs backtracking. -/

/-- Match a literal, returning the rest of the input. -/
def matchLit : List Char → List Char → Option (List Char)
  | [], s => some s
  | _ :: _, [] => none
  | c :: cs, d :: ds => if d = c then matchLit cs ds else none

/-- Match `\s+` (one or more whitespace characters, greedily). -/
def matchWs1 (s : List Char) : Option (List Char) :=
  match s with
  | [] => none
  | c :: rest => if isSpaceChar c then some (rest.dropWhile isSpaceChar) else none

/-- Match `"([^"]+)"`, returning the captured group and the rest. -/
def matchQuoted (s : List Char) : Option (Str × List Char) :=
  match s with
  | '"' :: rest =>
    let body := rest.takeWhile (fun c => c != '"')
    match rest.dropWhile (fun c => c != '"') with
    | '"' :: rest2 => if body.isEmpty then none else some (body, rest2)
    | _ => none
  | _ => none

/-- Match `kw\s+"([^"]+)"\s+"([^"]+)"\s*LBRACE` at the head of the input
(the `resource` and `data` block patterns). -/
def matchPairAt (kw : Str) (s : List Char) : Option ((Str × Str) × List Char) :=
  (matchLit kw s).bind fun s1 =>
  (matchWs1 s1).bind fun s2 =>
  (matchQuoted s2).bind fun p1 =>
  (matchWs1 p1.2).bind fun s3 =>
  (matchQuoted s3).bind fun p2 =>
  match p2.2.dropWhile isSpaceChar with
  | c :: rest => if c = lbraceChar then some ((p1.1, p2.1), rest) else none
  | [] => none

/-- Match `kw\s+"([^"]+)"\s*LBRACE` at the head of the input
(the `variable`, `output` and `provider` block patterns of file 04). -/
def matchSingleAt (kw : Str) (s : List Char) : Option (Str × List Char) :=
  (matchLit kw s).bind fun s1 =>
  (matchWs1 s1).bind fun s2 =>
  (matchQuoted s2).bind fun p1 =>
  match p1.2.dropWhile isSpaceChar with
  | c :: rest => if c = lbraceChar then some (p1.1, rest) else none
  | [] => none

/-- `re.finditer`/`re.findall` driver: try the matcher at each position; on a
match, continue scanning after it (non-overlapping), otherwise advance one
character.  Every matcher consumes at least one character on success, so fuel
equal to the input length suffices; it only makes the recursion structural. -/
def scanWithFuel {α : Type} (m : List Char → Option (α × List Char)) : Nat → List Char → List α
  | 0, _ => []
  | _ + 1, [] => []
  | fuel + 1, c :: cs =>
    match m (c :: cs) with
    | some r => r.1 :: scanWithFuel m fuel r.2
    | none => scanWithFuel m fuel cs

/-- All matches of a pattern in the content, in order. -/
def scanAll {α : Type} (m : List Char → Option (α × List Char)) (content : Str) : List α :=
  scanWithFuel m content.length content

/-- All matches of `resource\s+"([^"]+)"\s+"([^"]+)"\s*LBRACE`. -/
def scanResources (content : Str) : List (Str × Str) :=
  scanAll (matchPairAt (str "resource")) content

/-! ### Association lists (Python dicts)

Python dicts preserve insertion order; `d[k].extend(vs)` keeps the position of
an existing key and appends, a missing key is appended at the end.  This is
exactly `updateAssoc` on an ordered association list. -/

/-- Ordered-dict lookup (`k in d` / `d[k]`). -/
def lookupA {α : Type} (l : List (Str × α)) (k : Str) : Option α :=
  match l.find? (fun p => p.1 == k) with
  | some p => some p.2
  | none => none

/-- Ordered-dict update `d.setdefault(k, []).extend(vs)`. -/
def updateAssoc {α : Type} : List (Str × List α) → Str → List α → List (Str × List α)
  | [], k, vs => [(k, vs)]
  | e :: rest, k, vs => if e.1 = k then (e.1, e.2 ++ vs) :: rest else e :: updateAssoc rest k vs

/-! ### Synthesized graphs

A node records the category list it was created in and its display label; the
rendering class (`EC2`, `RDS`, `General`, …) is presentation-only and omitted. -/

/-- A synthesized diagram node: (category tag, label). -/
abbrev Node := Str × Str

/-- The synthesized output: node list and directed edge list. -/
structure Graph where
  nodes : List Node
  edges : List (Node × Node)
  deriving DecidableEq, Repr

/-- One category-pair rule applied to the components dict: if both categories
are present and their node lists are non-empty, connect the first node of the
source category to the first node of the target category. -/
def connectRule (components : List (Str × List Node)) (p : Str × Str) : Option (Node × Node) :=
  match lookupA components p.1 with
  | none => none
  | some [] => none
  | some (s :: _) =>
    match lookupA components p.2 with
    | none => none
    | some [] => none
    | some (t :: _) => some (s, t)

/-- Apply an ordered rule list, collecting the created edges in rule order. -/
def apply_connection_patterns (patterns : List (Str × Str))
    (components : List (Str × List Node)) : List (Node × Node) :=
  patterns.filterMap (connectRule components)

/-- All nodes materialized across the component layers. -/
def allNodes (components : List (Str × List Node)) : List Node :=
  (components.map Prod.snd).flatten

/-- A components dict is well-formed when every node is tagged with the
category layer it sits in (true of every dict the sources build). -/
abbrev WFComponents (components : List (Str × List Node)) : Prop :=
  ∀ e ∈ components, ∀ n ∈ e.2, n.1 = e.1

/-- Layer depth of each category; every rule list in the sources points from a
shallower layer to a strictly deeper one. -/
def layerRank (c : Str) : Nat :=
  if c = str "network" then 0
  else if c = str "security" then 1
  else if c = str "other" then 2
  else if c = str "integration" then 2
  else if c = str "monitoring" then 2
  else if c = str "application" then 2
  else if c = str "compute" then 5
  else if c = str "database" then 6
  else 7

/-- Reachability along the directed edges of a synthesized graph. -/
inductive Reaches (edges : List (Node × Node)) : Node → Node → Prop
  | step {a b : Node} : (a, b) ∈ edges → Reaches edges a b
  | trans {a b c : Node} : Reaches edges a b → Reaches edges b c → Reaches edges a c

/-! ### Classification (files 00 and 01)

Both flat-inventory variants classify with `category_map.get(type, 'other')`
into a dict of fixed category keys. -/

/-- `category_map.get(ty, 'other')`. -/
def catOfM (m : List (Str × Str)) (ty : Str) : Str :=
  match lookupA m ty with
  | some c => c
  | none => str "other"

/-- The list a category's dict entry holds after the classification loop:
the declarations whose type classifies to that category, in inventory order. -/
def categoryOfM (m : List (Str × Str)) (resources : List Resource) (c : Str) : List Resource :=
  resources.filter (fun r => catOfM m r.type == c)

/-- The categorized dict: fixed category keys, each holding its declarations. -/
def categorizeG (m : List (Str × Str)) (cats : List Str) (resources : List Resource) :
    List (Str × List Resource) :=
  cats.map (fun c => (c, categoryOfM m resources c))

namespace TF00

/-! Embedding of `terraform_architecture_diagram_draw_00.py`. -/

/-- The `category_map` of `categorize_resources` (lines 148-184), in source
order; a Python dict literal with distinct keys. -/
def category_map : List (Str × Str) :=
  [(str "aws_vpc", str "networking"),
   (str "aws_subnet", str "networking"),
   (str "aws_internet_gateway", str "networking"),
   (str "aws_nat_gateway", str "networking"),
   (str "aws_route_table", str "networking"),
   (str "aws_security_group", str "networking"),
   (str "aws_instance", str "compute"),
   (str "aws_launch_template", str "compute"),
   (str "aws_autoscaling_group", str "compute"),
   (str "aws_lambda_function", str "compute"),
   (str "aws_ecs_service", str "compute"),
   (str "aws_ecs_cluster", str "compute"),
   (str "aws_lb", str "networking"),
   (str "aws_alb", str "networking"),
   (str "aws_elb", str "networking"),
   (str "aws_lb_target_group", str "networking"),
   (str "aws_db_instance", str "database"),
   (str "aws_rds_cluster", str "database"),
   (str "aws_dynamodb_table", str "database"),
   (str "aws_elasticache_cluster", str "database"),
   (str "aws_wafv2_web_acl", str "security"),
   (str "aws_waf_web_acl", str "security"),
   (str "aws_iam_role", str "security"),
   (str "aws_iam_policy", str "security"),
   (str "aws_s3_bucket", str "storage"),
   (str "aws_cloudwatch_log_group", str "monitoring"),
   (str "aws_sqs_queue", str "integration"),
   (str "aws_sns_topic", str "integration")]

/-- The fixed category keys of the `categories` dict (lines 137-146). -/
def categories : List Str :=
  [str "networking", str "compute", str "database", str "security",
   str "storage", str "monitoring", str "integration", str "other"]

/-- `category_map.get(resource['type'], 'other')` (line 187). -/
def catOf (ty : Str) : Str := catOfM category_map ty

/-- `categorize_resources` (lines 135-190): append each declaration to the
category its type maps to, defaulting to `other`. -/
def categorize_resources (resources : List Resource) : List (Str × List Resource) :=
  categorizeG category_map categories resources

/-- `parse_terraform_file_regex` (lines 97-123): strip `#` line comments, then
block comments, then scan for `resource "type" "name" LBRACE`; every match
becomes a declaration with empty `config`. -/
def parse_terraform_file_regex (content : Str) : List Resource :=
  (scanResources (stripBlockComments (stripLineComments content))).map
    (fun p => { type := p.1, name := p.2, config := [] })

/-- The extraction loop of `parse_terraform_file_hcl2` (lines 84-91):
`parsed['resource']` is a mapping from type to instance mapping. -/
def extract_resources (parsedResource : List (Str × List (Str × Config))) : List Resource :=
  (parsedResource.map (fun e => e.2.map (fun i => Resource.mk e.1 i.1 i.2))).flatten

/-- `parse_terraform_file_hcl2` (lines 77-95).  The hcl2 library is external;
its outcome is a parameter, `none` modelling any exception raised by
`hcl2.load` or by the extraction loop.  The function catches every exception
and returns the empty list. -/
def parse_terraform_file_hcl2 (outcome : Option (List (Str × List (Str × Config)))) :
    List Resource :=
  match outcome with
  | some parsed => extract_resources parsed
  | none => []

/-- `parse_terraform_file` (lines 125-133): prefer hcl2 when available, but
fall back to regex extraction whenever the hcl2 result is empty. -/
def parse_terraform_file (hcl2Available : Bool)
    (outcome : Option (List (Str × List (Str × Config)))) (content : Str) : List Resource :=
  if hcl2Available then
    let resources := parse_terraform_file_hcl2 outcome
    if resources.isEmpty then parse_terraform_file_regex content else resources
  else parse_terraform_file_regex content

end TF00

namespace TF01

/-! Embedding of `terraform_architecture_diagram_draw_01.py`. -/

/-- The `category_map` of `categorize_resources` (lines 165-226), in source
order. -/
def category_map : List (Str × Str) :=
  [(str "aws_route53_record", str "dns"),
   (str "aws_route53_zone", str "dns"),
   (str "aws_wafv2_web_acl", str "security"),
   (str "aws_waf_web_acl", str "security"),
   (str "aws_security_group", str "security"),
   (str "aws_security_group_rule", str "security"),
   (str "aws_iam_role", str "security"),
   (str "aws_iam_policy", str "security"),
   (str "aws_iam_user", str "security"),
   (str "aws_iam_group", str "security"),
   (str "aws_lb", str "load_balancer"),
   (str "aws_alb", str "load_balancer"),
   (str "aws_elb", str "load_balancer"),
   (str "aws_lb_target_group", str "load_balancer"),
   (str "aws_lb_listener", str "load_balancer"),
   (str "aws_instance", str "compute"),
   (str "aws_launch_template", str "compute"),
   (str "aws_launch_configuration", str "compute"),
   (str "aws_autoscaling_group", str "compute"),
   (str "aws_lambda_function", str "compute"),
   (str "aws_ecs_service", str "compute"),
   (str "aws_ecs_cluster", str "compute"),
   (str "aws_ecs_task_definition", str "compute"),
   (str "aws_db_instance", str "database"),
   (str "aws_rds_cluster", str "database"),
   (str "aws_rds_cluster_instance", str "database"),
   (str "aws_dynamodb_table", str "database"),
   (str "aws_elasticache_cluster", str "database"),
   (str "aws_elasticache_replication_group", str "database"),
   (str "aws_s3_bucket", str "storage"),
   (str "aws_s3_bucket_policy", str "storage"),
   (str "aws_s3_bucket_notification", str "storage"),
   (str "aws_vpc", str "networking"),
   (str "aws_subnet", str "networking"),
   (str "aws_internet_gateway", str "networking"),
   (str "aws_nat_gateway", str "networking"),
   (str "aws_route_table", str "networking"),
   (str "aws_route", str "networking"),
   (str "aws_cloudwatch_log_group", str "monitoring"),
   (str "aws_cloudwatch_metric_alarm", str "monitoring"),
   (str "aws_sqs_queue", str "integration"),
   (str "aws_sns_topic", str "integration"),
   (str "aws_sns_subscription", str "integration")]

/-- The fixed category keys of the `categories` dict (lines 151-162). -/
def categories : List Str :=
  [str "dns", str "security", str "load_balancer", str "compute", str "database",
   str "storage", str "networking", str "monitoring", str "integration", str "other"]

/-- `category_map.get(resource['type'], 'other')` (line 229). -/
def catOf (ty : Str) : Str := catOfM category_map ty

/-- `categorize_resources` (lines 149-232). -/
def categorize_resources (resources : List Resource) : List (Str × List Resource) :=
  categorizeG category_map categories resources

/-- `parse_terraform_with_regex` (lines 108-135): strip `#` line comments,
block comments and `//` line comments, then scan for resource declarations. -/
def parse_terraform_with_regex (content : Str) : List Resource :=
  (scanResources (stripSlashComments (stripBlockComments (stripLineComments content)))).map
    (fun p => { type := p.1, name := p.2, config := [] })

/-- The extraction loop of `parse_terraform_with_hcl2` (lines 94-102). -/
def extract_resources (parsedResource : List (Str × List (Str × Config))) : List Resource :=
  (parsedResource.map (fun e => e.2.map (fun i => Resource.mk e.1 i.1 i.2))).flatten

/-- `parse_terraform_with_hcl2` (lines 88-106): catches every exception and
returns the empty list (`none` models an exception of the external library
or of the extraction loop). -/
def parse_terraform_with_hcl2 (outcome : Option (List (Str × List (Str × Config)))) :
    List Resource :=
  match outcome with
  | some parsed => extract_resources parsed
  | none => []

/-- `parse_terraform_file` (lines 137-147): hcl2 when available, regex
fallback whenever the hcl2 result is empty. -/
def parse_terraform_file (hcl2Available : Bool)
    (outcome : Option (List (Str × List (Str × Config)))) (content : Str) : List Resource :=
  let resources := if hcl2Available then parse_terraform_with_hcl2 outcome else []
  if resources.isEmpty then parse_terraform_with_regex content else resources

end TF01

namespace TF03

/-! Embedding of `terraform_architecture_diagram_draw_03.py`. -/

/-- One instance entry of the per-type inventory dict: `{'name': …, 'config': …}`. -/
structure Inst where
  name : Str
  config : Config
  deriving DecidableEq, Repr

/-- The inventory: an ordered dict from resource type to its instance list. -/
abbrev Inventory := List (Str × List Inst)

/-- `parse_with_regex` (lines 92-108): scan the raw content (no comment
stripping) for `resource "type" "name" LBRACE` and build the per-type dict;
every instance carries empty `config`. -/
def parse_with_regex (content : Str) : Inventory :=
  (scanResources content).foldl (fun acc p => updateAssoc acc p.1 [{ name := p.2, config := [] }]) []

/-- The hcl2 extraction loop (lines 71-81): `parsed['resource']` is a list of
blocks, each a mapping from type to instance mapping. -/
def parse_hcl2_blocks (blocks : List (List (Str × List (Str × Config)))) : Inventory :=
  blocks.foldl (fun acc block =>
    block.foldl (fun a e => updateAssoc a e.1 (e.2.map (fun i => { name := i.1, config := i.2 }))) acc) []

/-- `parse_terraform_file` (lines 61-90): try hcl2; on any exception (`none`)
fall back to regex parsing inside this same function. -/
def parse_terraform_file (outcome : Option (List (List (Str × List (Str × Config)))))
    (content : Str) : Inventory :=
  match outcome with
  | some blocks => parse_hcl2_blocks blocks
  | none => parse_with_regex content

/-- The `resource_mappings` table of `get_diagram_components` (lines 122-172),
keeping the category of each (type, (category, class)) entry; the rendering
class is presentation-only. -/
def resource_mappings : List (Str × Str) :=
  [(str "aws_instance", str "compute"),
   (str "aws_ecs_service", str "compute"),
   (str "aws_ecs_cluster", str "compute"),
   (str "aws_lambda_function", str "compute"),
   (str "aws_autoscaling_group", str "compute"),
   (str "aws_db_instance", str "database"),
   (str "aws_rds_cluster", str "database"),
   (str "aws_dynamodb_table", str "database"),
   (str "aws_elasticache_cluster", str "database"),
   (str "aws_redshift_cluster", str "database"),
   (str "aws_lb", str "network"),
   (str "aws_alb", str "network"),
   (str "aws_elb", str "network"),
   (str "aws_nlb", str "network"),
   (str "aws_route53_record", str "network"),
   (str "aws_cloudfront_distribution", str "network"),
   (str "aws_vpc", str "network"),
   (str "aws_subnet", str "network"),
   (str "aws_s3_bucket", str "storage"),
   (str "aws_ebs_volume", str "storage"),
   (str "aws_efs_file_system", str "storage"),
   (str "aws_waf_web_acl", str "security"),
   (str "aws_iam_role", str "security"),
   (str "aws_iam_policy", str "security"),
   (str "aws_cognito_user_pool", str "security"),
   (str "aws_sqs_queue", str "other"),
   (str "aws_sns_topic", str "other"),
   (str "aws_cloudwatch_log_group", str "other"),
   (str "kubernetes_deployment", str "compute"),
   (str "kubernetes_service", str "network"),
   (str "kubernetes_ingress", str "network"),
   (str "kubernetes_pod", str "compute"),
   (str "docker_container", str "compute"),
   (str "docker_image", str "compute")]

/-- The fixed category keys of the `components` dict (lines 112-119). -/
def categories : List Str :=
  [str "compute", str "database", str "network", str "storage", str "security", str "other"]

/-- `instances[0]['name'] if instances else 'unknown'` (line 182). -/
def headName : List Inst → Str
  | [] => str "unknown"
  | i :: _ => i.name

/-- The nodes one inventory entry contributes to category `c`
(lines 174-183): a mapped type contributes one node per instance to its
category; an unmapped type contributes a single generic node to `other`. -/
def entryOf (c : Str) (e : Str × List Inst) : List Node :=
  match lookupA resource_mappings e.1 with
  | some cat => if cat = c then e.2.map (fun i => (c, e.1 ++ '\n' :: i.name)) else []
  | none => if c = str "other" then [(c, e.1 ++ '\n' :: headName e.2)] else []

/-- The node list of category `c` after the `get_diagram_components` loop. -/
def entriesFor (resources : Inventory) (c : Str) : List Node :=
  (resources.map (entryOf c)).flatten

/-- `get_diagram_components` (lines 110-185). -/
def get_diagram_components (resources : Inventory) : List (Str × List Node) :=
  categories.map (fun c => (c, entriesFor resources c))

/-- `connection_patterns` of `create_logical_connections` (lines 232-239). -/
def connection_patterns : List (Str × Str) :=
  [(str "network", str "security"),
   (str "security", str "compute"),
   (str "network", str "compute"),
   (str "compute", str "database"),
   (str "compute", str "storage"),
   (str "other", str "compute")]

/-- `create_logical_connections` (lines 228-248). -/
def create_logical_connections (components : List (Str × List Node)) : List (Node × Node) :=
  apply_connection_patterns connection_patterns components

/-- `non_empty_components` (line 199). -/
def nonEmptyComponents (resources : Inventory) : List (Str × List Node) :=
  (get_diagram_components resources).filter (fun p => !p.2.isEmpty)

/-- `create_architecture_diagram` (lines 187-226) as the synthesized graph:
an empty inventory or an inventory with no mappable components yields a single
`General` placeholder node (tagged `general`, since it belongs to no category
layer); otherwise the created component layers plus the logical connections. -/
def create_architecture_diagram (resources : Inventory) : Graph :=
  if resources.isEmpty then
    { nodes := [(str "general", str "No Resources Found")], edges := [] }
  else if (nonEmptyComponents resources).isEmpty then
    { nodes := [(str "general", str "Generic Resources")], edges := [] }
  else
    { nodes := allNodes (nonEmptyComponents resources),
      edges := create_logical_connections (nonEmptyComponents resources) }

/-- The inventory-merging loop of `generate_diagrams_for_directory`
(lines 274-282): fold the second inventory into the first, appending each
type's instances to the shared per-type sequence. -/
def mergeResources (acc inv : Inventory) : Inventory :=
  inv.foldl (fun a e => updateAssoc a e.1 e.2) acc

end TF03

/-- View a per-type inventory dict as the flat declaration list the
flat-inventory classifier (file 00) traverses, in dict order. -/
def flattenInv (inv : TF03.Inventory) : List Resource :=
  (inv.map (fun e => e.2.map (fun i => Resource.mk e.1 i.name i.config))).flatten

namespace TF04

/-! Embedding of `terraform_architecture_diagram_draw_04.py`. -/

/-- One instance entry: `{'name': …, 'config': {}, 'type': block_type}` on the
regex path; the hcl2 path (lines 76-80) stores no `type` key, modelled by
`none`. -/
structure Inst where
  name : Str
  config : Config
  btype : Option Str
  deriving DecidableEq, Repr

/-- The inventory: ordered dict from resource type to instance list. -/
abbrev Inventory := List (Str × List Inst)

/-- `source.split('/')[-1]`: the suffix after the last slash. -/
def suffixAfterLastSlash (l : Str) : Str :=
  l.foldl (fun acc c => if c = '/' then [] else acc ++ [c]) []

/-- The synthesized module resource type (line 128):
`module_{source.split('/')[-1]}` when the source contains a slash, else
`module_{name}`. -/
def moduleType (nm url : Str) : Str :=
  if url.contains '/' then str "module_" ++ suffixAfterLastSlash url
  else str "module_" ++ nm

/-- Match the module-body group `([^}]*source\s*=\s*"([^"]+)"[^}]*)\}` of the
module pattern at the head of the input, returning the captured source and the
rest after the closing brace. -/
def matchSourceFrom (s : List Char) : Option (Str × List Char) :=
  (matchLit (str "source") s).bind fun s1 =>
  match s1.dropWhile isSpaceChar with
  | '=' :: s2 =>
    match s2.dropWhile isSpaceChar with
    | '"' :: s3 =>
      let url := s3.takeWhile (fun c => c != '"')
      if url.isEmpty then none else
      match s3.dropWhile (fun c => c != '"') with
      | '"' :: s4 =>
        match s4.dropWhile (fun c => c != rbraceChar) with
        | c :: s5 => if c = rbraceChar then some (url, s5) else none
        | [] => none
      | _ => none
    | _ => none
  | _ => none

/-- Match the module pattern
`module\s+"([^"]+)"\s*LBRACE([^}]*source\s*=\s*"([^"]+)"[^}]*)\}` at the head
of the input.  The greedy leading `[^}]*` of the body group backtracks from
its longest run, so the tails of that run are tried shortest-first. -/
def matchModuleAt (s : List Char) : Option ((Str × Str) × List Char) :=
  (matchLit (str "module") s).bind fun s1 =>
  (matchWs1 s1).bind fun s2 =>
  (matchQuoted s2).bind fun p1 =>
  match p1.2.dropWhile isSpaceChar with
  | c :: rest =>
    if c = lbraceChar then
      let bodyRun := rest.takeWhile (fun c2 => c2 != rbraceChar)
      let afterRun := rest.dropWhile (fun c2 => c2 != rbraceChar)
      match (bodyRun.tails.reverse).findSome? (fun t => matchSourceFrom (t ++ afterRun)) with
      | some r => some ((p1.1, r.1), r.2)
      | none => none
    else none
  | [] => none

/-- The items collected by the `parse_with_regex` loop (lines 95-152): all
matches of each pattern, in the fixed pattern order, as
(resource type, instance) pairs. -/
def regexItems (content : Str) : List (Str × Inst) :=
  ((scanAll (matchPairAt (str "resource")) content).map
     (fun p => (p.1, Inst.mk p.2 [] (some (str "resource"))))) ++
  ((scanAll matchModuleAt content).map
     (fun p => (moduleType p.1 p.2, Inst.mk p.1 [] (some (str "module"))))) ++
  ((scanAll (matchPairAt (str "data")) content).map
     (fun p => (str "data_" ++ p.1, Inst.mk p.2 [] (some (str "data"))))) ++
  ((scanAll (matchSingleAt (str "variable")) content).map
     (fun nm => (str "variable", Inst.mk nm [] (some (str "variable"))))) ++
  ((scanAll (matchSingleAt (str "output")) content).map
     (fun nm => (str "output", Inst.mk nm [] (some (str "output"))))) ++
  ((scanAll (matchSingleAt (str "provider")) content).map
     (fun nm => (str "provider", Inst.mk nm [] (some (str "provider")))))

/-- `parse_with_regex` (lines 95-173): append every collected item to the
per-type dict. -/
def parse_with_regex (content : Str) : Inventory :=
  (regexItems content).foldl (fun acc e => updateAssoc acc e.1 [e.2]) []

/-- The hcl2 extraction loop (lines 71-80). -/
def extract_blocks (blocks : List (List (Str × List (Str × Config)))) : Inventory :=
  blocks.foldl (fun acc block =>
    block.foldl (fun a e => updateAssoc a e.1 (e.2.map (fun i => Inst.mk i.1 i.2 none))) acc) []

/-- `parse_terraform_file` (lines 49-93): when hcl2 is available, use it, and
on any exception (`none`) fall back to regex parsing; without hcl2, regex
parsing directly. -/
def parse_terraform_file (hcl2Available : Bool)
    (outcome : Option (List (List (Str × List (Str × Config))))) (content : Str) : Inventory :=
  if hcl2Available then
    match outcome with
    | some blocks => extract_blocks blocks
    | none => parse_with_regex content
  else parse_with_regex content

/-- `connection_patterns` of `create_connections` (lines 334-344). -/
def connection_patterns : List (Str × Str) :=
  [(str "network", str "security"),
   (str "security", str "compute"),
   (str "network", str "compute"),
   (str "compute", str "database"),
   (str "compute", str "storage"),
   (str "integration", str "compute"),
   (str "network", str "integration"),
   (str "monitoring", str "compute"),
   (str "application", str "compute")]

/-- `create_connections` (lines 331-360). -/
def create_connections (component_layers : List (Str × List Node)) : List (Node × Node) :=
  apply_connection_patterns connection_patterns component_layers

end TF04

/-- Modelled from the spec: the fixed ordered category-pair rule list the
specification claims the topology synthesizer applies (section 4.5, step 2),
stated here only for comparison with the rule lists of the implementations. -/
def spec_claimed_connection_rules : List (Str × Str) :=
  [(str "network", str "security"),
   (str "security", str "compute"),
   (str "network", str "compute"),
   (str "compute", str "database"),
   (str "compute", str "storage"),
   (str "integration", str "compute"),
   (str "monitoring", str "compute")]

/-- Whether the text contains a block-comment opener `/*`. -/
def hasOpen : List Char → Bool
  | [] => false
  | [_] => false
  | a :: b :: rest => if a = '/' && b = '*' then true else hasOpen (b :: rest)

/-- Whether the text's last character is a slash (which could fuse with the
first character of an appended text into a block-comment opener). -/
def lastIsSlash : List Char → Bool
  | [] => false
  | [c] => c = '/'
  | _ :: d :: rest => lastIsSlash (d :: rest)

namespace TF00

/-! Diagram generation of `terraform_architecture_diagram_draw_00.py`
(lines 192-338). -/

/-- Decimal representation of a count, for numbered node labels. -/
def natStr (n : Nat) : Str := (Nat.repr n).toList

/-- A value of the `components` dict of `create_diagram_components`: the
source stores either a single diagram node or a Python list of nodes.  A node
is tagged with its rendering class name. -/
inductive Component where
  | one : Node → Component
  | many : List Node → Component
  deriving DecidableEq, Repr

/-- The nodes a component value contributes to the diagram. -/
def componentNodes : Component → List Node
  | .one n => [n]
  | .many l => l

/-- Membership of a resource type in a Python list literal. -/
def typeIn (tys : List Str) (r : Resource) : Bool := tys.contains r.type

/-- The networking components (lines 196-211): one load-balancer entry
(single node of class ALB or ELB by type, or an uncapped numbered ALB list)
and a DNS node when Route53 resources are present. -/
def networking_components (networking : List Resource) : List (Str × Component) :=
  if networking.isEmpty then []
  else
    let load_balancers := networking.filter (typeIn [str "aws_lb", str "aws_alb", str "aws_elb"])
    let lb :=
      match load_balancers with
      | [] => []
      | [r] =>
        if r.type = str "aws_lb" ∨ r.type = str "aws_alb" then
          [(str "load_balancer",
            Component.one (str "ALB", str "Load Balancer (" ++ r.name ++ str ")"))]
        else
          [(str "load_balancer",
            Component.one (str "ELB", str "Load Balancer (" ++ r.name ++ str ")"))]
      | _ =>
        [(str "load_balancer",
          Component.many ((List.range load_balancers.length).map
            (fun i => (str "ALB", str "LB-" ++ natStr (i + 1)))))]
    let route53_resources :=
      networking.filter (typeIn [str "aws_route53_record", str "aws_route53_zone"])
    let dns :=
      if route53_resources.isEmpty then []
      else [(str "dns", Component.one (str "Route53", str "DNS"))]
    lb ++ dns

/-- The compute components (lines 213-236): EC2 (single labelled node or a
list capped at three), Lambda (likewise), ECS and auto-scaling nodes. -/
def compute_components (compute : List Resource) : List (Str × Component) :=
  if compute.isEmpty then []
  else
    let ec2_instances := compute.filter (typeIn [str "aws_instance", str "aws_launch_template"])
    let lambda_functions := compute.filter (fun r => r.type == str "aws_lambda_function")
    let ecs_services := compute.filter (typeIn [str "aws_ecs_service", str "aws_ecs_cluster"])
    let asg_resources := compute.filter (fun r => r.type == str "aws_autoscaling_group")
    let ec2 :=
      match ec2_instances with
      | [] => []
      | [r] => [(str "compute", Component.one (str "EC2", str "EC2 (" ++ r.name ++ str ")"))]
      | _ =>
        [(str "compute", Component.many ((List.range (min ec2_instances.length 3)).map
            (fun i => (str "EC2", str "EC2-" ++ natStr (i + 1)))))]
    let lam :=
      match lambda_functions with
      | [] => []
      | [r] => [(str "lambda", Component.one (str "Lambda", str "Lambda (" ++ r.name ++ str ")"))]
      | _ =>
        [(str "lambda", Component.many ((List.range (min lambda_functions.length 3)).map
            (fun i => (str "Lambda", str "Lambda-" ++ natStr (i + 1)))))]
    let ecs :=
      if ecs_services.isEmpty then []
      else [(str "ecs", Component.one (str "ECS", str "ECS Service"))]
    let asg :=
      if asg_resources.isEmpty then []
      else [(str "asg", Component.one (str "AutoScaling", str "Auto Scaling Group"))]
    ec2 ++ lam ++ ecs ++ asg

/-- The database components (lines 238-247): one RDS node labelled by the
first RDS-like declaration and one DynamoDB node likewise. -/
def database_components (database : List Resource) : List (Str × Component) :=
  if database.isEmpty then []
  else
    let rds_instances := database.filter (typeIn [str "aws_db_instance", str "aws_rds_cluster"])
    let dynamodb_tables := database.filter (fun r => r.type == str "aws_dynamodb_table")
    let rds :=
      match rds_instances with
      | [] => []
      | r :: _ => [(str "rds", Component.one (str "RDS", str "RDS (" ++ r.name ++ str ")"))]
    let dyn :=
      match dynamodb_tables with
      | [] => []
      | r :: _ =>
        [(str "dynamodb", Component.one (str "Dynamodb", str "DynamoDB (" ++ r.name ++ str ")"))]
    rds ++ dyn

/-- The security components (lines 249-253): a WAF node when WAF resources
are present. -/
def security_components (security : List Resource) : List (Str × Component) :=
  if security.isEmpty then []
  else
    let waf_resources := security.filter (typeIn [str "aws_wafv2_web_acl", str "aws_waf_web_acl"])
    if waf_resources.isEmpty then []
    else [(str "waf", Component.one (str "WAF", str "WAF"))]

/-- The storage components (lines 255-262): a single S3 node, labelled with
the bucket name or with the bucket count. -/
def storage_components (storage : List Resource) : List (Str × Component) :=
  if storage.isEmpty then []
  else
    let s3_buckets := storage.filter (fun r => r.type == str "aws_s3_bucket")
    match s3_buckets with
    | [] => []
    | [r] => [(str "s3", Component.one (str "S3", str "S3 (" ++ r.name ++ str ")"))]
    | _ =>
      [(str "s3", Component.one (str "S3",
          str "S3 Buckets (" ++ natStr s3_buckets.length ++ str ")"))]

/-- `create_diagram_components` (lines 192-264): the components dict in its
insertion order, built from the categorized resources. -/
def create_diagram_components (resources : List Resource) : List (Str × Component) :=
  networking_components (categoryOfM category_map resources (str "networking")) ++
  compute_components (categoryOfM category_map resources (str "compute")) ++
  database_components (categoryOfM category_map resources (str "database")) ++
  security_components (categoryOfM category_map resources (str "security")) ++
  storage_components (categoryOfM category_map resources (str "storage"))

/-- The `>>` operator of the diagrams library on the shapes the source
produces: node to node, node to each of a list, each of a list to a node (and
list to list, unused by this script, as every pair). -/
def connectOp : Component → Component → List (Node × Node)
  | .one a, .one b => [(a, b)]
  | .one a, .many l => l.map (fun b => (a, b))
  | .many l, .one b => l.map (fun a => (a, b))
  | .many l1, .many l2 => (l1.map (fun a => l2.map (fun b => (a, b)))).flatten

/-- `prev_component = prev_component[0]` on a list (line 311).  The source
never reaches this with an empty list — every list it stores is non-empty —
so the empty-list case (where Python would raise IndexError) is modelled as
the empty component. -/
def firstOf : Component → Component
  | .one n => .one n
  | .many [] => .many []
  | .many (n :: _) => .one n

/-- Python truthiness of a component: a node object is truthy, a list is
truthy exactly when non-empty. -/
def compTruthy : Component → Bool
  | .one _ => true
  | .many l => !l.isEmpty

/-- The `flow_order` list (line 304). -/
def flow_order : List Str :=
  [str "dns", str "waf", str "load_balancer", str "compute", str "lambda",
   str "ecs", str "asg"]

/-- The flow loop (lines 306-316): chain the present flow components in
order, connecting the first node of the previous component to the current
component; returns the last component seen and the created edges. -/
def flowLoop (components : List (Str × Component)) : Option Component × List (Node × Node) :=
  flow_order.foldl
    (fun acc key =>
      match lookupA components key with
      | none => acc
      | some current =>
        match acc.1 with
        | none => (some current, acc.2)
        | some prev => (some current, acc.2 ++ connectOp (firstOf prev) current))
    (none, [])

/-- The database and storage connections after the flow (lines 318-338):
the last flow component feeds RDS and DynamoDB when present, and the compute
component's first node feeds S3 when both are present. -/
def tailEdges (components : List (Str × Component)) (prev : Option Component) :
    List (Node × Node) :=
  let prevTruthy :=
    match prev with
    | none => false
    | some p => compTruthy p
  let dbEdges :=
    match prev with
    | none => []
    | some p =>
      if prevTruthy = true ∧ ((lookupA components (str "rds")).isSome ∨
          (lookupA components (str "dynamodb")).isSome) then
        (match lookupA components (str "rds") with
         | some rds => connectOp p rds
         | none => []) ++
        (match lookupA components (str "dynamodb") with
         | some dyn => connectOp p dyn
         | none => [])
      else []
  let s3Edges :=
    if (lookupA components (str "s3")).isSome ∧ prevTruthy = true then
      match lookupA components (str "s3"), lookupA components (str "compute") with
      | some s3, some comp => connectOp (firstOf comp) s3
      | _, _ => []
    else []
  dbEdges ++ s3Edges

/-- `generate_architecture_diagram` (lines 266-338) as an optional graph: an
empty inventory returns early and produces no diagram at all; otherwise the
components are created and connected (or, when no component was recognized,
up to five generic nodes are drawn, fanned out from the first). -/
def generate_architecture_diagram (resources : List Resource) : Option Graph :=
  if resources.isEmpty then none
  else
    let components := create_diagram_components resources
    if components.isEmpty then
      let generic := (resources.take 5).map
        (fun r => (str "General", r.type ++ '\n' :: (str "(" ++ r.name ++ str ")")))
      some { nodes := generic,
             edges :=
               match generic with
               | g0 :: g1 :: grest => (g1 :: grest).map (fun n => (g0, n))
               | _ => [] }
    else
      some { nodes := (components.map (fun e => componentNodes e.2)).flatten,
             edges := (flowLoop components).2 ++ tailEdges components (flowLoop components).1 }

end TF00

/-! ### Helper lemmas -/

theorem lookupA_eq_some {α : Type} {l : List (Str × α)} {k : Str} {v : α}
    (h : lookupA l k = some v) : ∃ q ∈ l, q.1 = k ∧ q.2 = v := by
  unfold lookupA at h
  cases hf : l.find? (fun p => p.1 == k) with
  | none => rw [hf] at h; cases h
  | some q =>
    rw [hf] at h
    injection h with hv
    refine ⟨q, List.mem_of_find?_eq_some hf, ?_, hv⟩
    have hp := List.find?_some hf
    exact eq_of_beq hp

theorem lookupA_singleton {α : Type} (k k2 : Str) (v : α) :
    lookupA [(k, v)] k2 = if k = k2 then some v else none := by
  unfold lookupA
  by_cases h : k = k2
  · simp [List.find?, h]
  · have hb : (k == k2) = false := by
      rw [beq_eq_false_iff_ne]
      exact h
    simp [List.find?, hb, h]

theorem connectRule_eq_some {components : List (Str × List Node)} {p : Str × Str}
    {e : Node × Node} (h : connectRule components p = some e) :
    ∃ srest trest, lookupA components p.1 = some (e.1 :: srest) ∧
      lookupA components p.2 = some (e.2 :: trest) := by
  unfold connectRule at h
  cases h1 : lookupA components p.1 with
  | none => rw [h1] at h; cases h
  | some sl =>
    rw [h1] at h
    cases sl with
    | nil => cases h
    | cons s srest =>
      cases h2 : lookupA components p.2 with
      | none => rw [h2] at h; cases h
      | some tl =>
        rw [h2] at h
        cases tl with
        | nil => cases h
        | cons t trest =>
          injection h with he
          subst he
          refine ⟨srest, trest, ?_, ?_⟩
          · simp [h1]
          · simp [h2]

theorem mem_apply_patterns {patterns : List (Str × Str)}
    {components : List (Str × List Node)} {e : Node × Node}
    (h : e ∈ apply_connection_patterns patterns components) :
    ∃ p ∈ patterns, ∃ srest trest, lookupA components p.1 = some (e.1 :: srest) ∧
      lookupA components p.2 = some (e.2 :: trest) := by
  obtain ⟨p, hp, hc⟩ := List.mem_filterMap.mp h
  obtain ⟨srest, trest, h1, h2⟩ := connectRule_eq_some hc
  exact ⟨p, hp, srest, trest, h1, h2⟩

theorem mem_allNodes_of_lookupA {components : List (Str × List Node)} {k : Str}
    {v : List Node} {n : Node} (h : lookupA components k = some v) (hn : n ∈ v) :
    n ∈ allNodes components := by
  obtain ⟨q, hq, _, hv⟩ := lookupA_eq_some h
  exact List.mem_flatten.mpr ⟨q.2, List.mem_map_of_mem Prod.snd hq, hv ▸ hn⟩

theorem apply_patterns_endpoints {patterns : List (Str × Str)}
    {components : List (Str × List Node)} {e : Node × Node}
    (h : e ∈ apply_connection_patterns patterns components) :
    e.1 ∈ allNodes components ∧ e.2 ∈ allNodes components := by
  obtain ⟨p, _, srest, trest, h1, h2⟩ := mem_apply_patterns h
  exact ⟨mem_allNodes_of_lookupA h1 (List.mem_cons_self _ _),
         mem_allNodes_of_lookupA h2 (List.mem_cons_self _ _)⟩

theorem apply_patterns_first_nodes {patterns : List (Str × Str)}
    {components : List (Str × List Node)} (hw : WFComponents components)
    {e : Node × Node} (h : e ∈ apply_connection_patterns patterns components) :
    ∃ srest trest, lookupA components e.1.1 = some (e.1 :: srest) ∧
      lookupA components e.2.1 = some (e.2 :: trest) := by
  obtain ⟨p, _, srest, trest, h1, h2⟩ := mem_apply_patterns h
  obtain ⟨q1, hq1, hk1, hv1⟩ := lookupA_eq_some h1
  obtain ⟨q2, hq2, hk2, hv2⟩ := lookupA_eq_some h2
  have hc1 : e.1.1 = p.1 := by
    have := hw q1 hq1 e.1 (by rw [hv1]; exact List.mem_cons_self _ _)
    rw [this, hk1]
  have hc2 : e.2.1 = p.2 := by
    have := hw q2 hq2 e.2 (by rw [hv2]; exact List.mem_cons_self _ _)
    rw [this, hk2]
  exact ⟨srest, trest, by rw [hc1]; exact h1, by rw [hc2]; exact h2⟩

theorem apply_patterns_edge_cats
    {components : List (Str × List Node)} (hw : WFComponents components)
    {p : Str × Str} {e : Node × Node} (h : connectRule components p = some e) :
    (e.1.1, e.2.1) = p := by
  obtain ⟨srest, trest, h1, h2⟩ := connectRule_eq_some h
  obtain ⟨q1, hq1, hk1, hv1⟩ := lookupA_eq_some h1
  obtain ⟨q2, hq2, hk2, hv2⟩ := lookupA_eq_some h2
  have hc1 : e.1.1 = p.1 := by
    have := hw q1 hq1 e.1 (by rw [hv1]; exact List.mem_cons_self _ _)
    rw [this, hk1]
  have hc2 : e.2.1 = p.2 := by
    have := hw q2 hq2 e.2 (by rw [hv2]; exact List.mem_cons_self _ _)
    rw [this, hk2]
  rw [hc1, hc2]

theorem filterMap_map_sublist {α β : Type} (f : α → Option β) (g : β → α) :
    ∀ l : List α, (∀ a ∈ l, ∀ b, f a = some b → g b = a) →
      List.Sublist ((l.filterMap f).map g) l := by
  intro l
  induction l with
  | nil => intro _; simp
  | cons a rest ih =>
    intro h
    rw [List.filterMap_cons]
    cases hf : f a with
    | none => exact (ih (fun x hx b hb => h x (List.mem_cons_of_mem _ hx) b hb)).cons a
    | some b =>
      rw [List.map_cons, h a (List.mem_cons_self _ _) b hf]
      exact (ih (fun x hx b2 hb => h x (List.mem_cons_of_mem _ hx) b2 hb)).cons₂ a

theorem apply_patterns_rank {patterns : List (Str × Str)}
    {components : List (Str × List Node)}
    (hp : ∀ p ∈ patterns, layerRank p.1 < layerRank p.2) (hw : WFComponents components) :
    ∀ e ∈ apply_connection_patterns patterns components, layerRank e.1.1 < layerRank e.2.1 := by
  intro e he
  obtain ⟨p, hpm, hc⟩ := List.mem_filterMap.mp he
  have hcats := apply_patterns_edge_cats hw hc
  obtain ⟨p1, p2⟩ := p
  injection hcats with hA hB
  rw [hA, hB]
  exact hp (p1, p2) hpm

theorem reaches_rank {edges : List (Node × Node)} {f : Node → Nat}
    (hf : ∀ e ∈ edges, f e.1 < f e.2) : ∀ {n m : Node}, Reaches edges n m → f n < f m := by
  intro n m h
  induction h with
  | step hmem => exact hf _ hmem
  | trans _ _ ih1 ih2 => exact lt_trans ih1 ih2

theorem reaches_ne {edges : List (Node × Node)}
    (hf : ∀ e ∈ edges, layerRank e.1.1 < layerRank e.2.1) {n m : Node}
    (h : Reaches edges n m) : n ≠ m := by
  intro heq
  have := @reaches_rank edges (fun x => layerRank x.1) hf n m h
  rw [heq] at this
  exact lt_irrefl _ this

theorem entryOf_fst (c : Str) (e : Str × List TF03.Inst) :
    ∀ n ∈ TF03.entryOf c e, n.1 = c := by
  intro n hn
  unfold TF03.entryOf at hn
  split at hn
  · split at hn
    · obtain ⟨i, _, hi⟩ := List.mem_map.mp hn
      rw [← hi]
    · cases hn
  · split at hn
    · cases hn with
      | head => rfl
      | tail _ h2 => cases h2
    · cases hn

theorem wf_get_diagram_components (resources : TF03.Inventory) :
    WFComponents (TF03.get_diagram_components resources) := by
  intro e he n hn
  obtain ⟨c, _, hc⟩ := List.mem_map.mp he
  rw [← hc] at hn ⊢
  obtain ⟨l, hl, hnl⟩ := List.mem_flatten.mp hn
  obtain ⟨x, _, hx⟩ := List.mem_map.mp hl
  exact entryOf_fst c x n (hx ▸ hnl)

theorem wf_filter {components : List (Str × List Node)} (hw : WFComponents components)
    (p : Str × List Node → Bool) : WFComponents (components.filter p) := by
  intro e he n hn
  exact hw e (List.mem_filter.mp he).1 n hn

theorem connectRule_singleton_none {pat : Str × Str} {k : Str} {L : List Node}
    (h : ¬(pat.1 = k ∧ pat.2 = k)) : connectRule [(k, L)] pat = none := by
  unfold connectRule
  rw [lookupA_singleton, lookupA_singleton]
  by_cases h1 : k = pat.1
  · rw [if_pos h1]
    have h2 : ¬ k = pat.2 := fun hk => h ⟨h1.symm, hk.symm⟩
    rw [if_neg h2]
    cases L with
    | nil => rfl
    | cons a l => rfl
  · rw [if_neg h1]

theorem apply_patterns_singleton_nil {pats : List (Str × Str)} {k : Str} {L : List Node}
    (h : ∀ p ∈ pats, ¬(p.1 = k ∧ p.2 = k)) :
    apply_connection_patterns pats [(k, L)] = [] := by
  induction pats with
  | nil => rfl
  | cons p rest ih =>
    unfold apply_connection_patterns at ih ⊢
    rw [List.filterMap_cons, connectRule_singleton_none (h p (List.mem_cons_self _ _))]
    exact ih (fun q hq => h q (List.mem_cons_of_mem _ hq))

theorem catOfM_mem {m : List (Str × Str)} {cats : List Str}
    (hm : ∀ q ∈ m, q.2 ∈ cats) (ho : str "other" ∈ cats) (ty : Str) :
    catOfM m ty ∈ cats := by
  unfold catOfM
  cases h : lookupA m ty with
  | none => exact ho
  | some c =>
    obtain ⟨q, hq, _, hv⟩ := lookupA_eq_some h
    exact hv ▸ hm q hq

theorem classify_exactly_one {m : List (Str × Str)} {cats : List Str}
    (hm : ∀ q ∈ m, q.2 ∈ cats) (ho : str "other" ∈ cats)
    {resources : List Resource} {r : Resource} (hr : r ∈ resources) :
    ∃! p, p ∈ categorizeG m cats resources ∧ r ∈ p.2 := by
  refine ⟨(catOfM m r.type, categoryOfM m resources (catOfM m r.type)), ⟨?_, ?_⟩, ?_⟩
  · exact List.mem_map.mpr ⟨catOfM m r.type, catOfM_mem hm ho r.type, rfl⟩
  · exact List.mem_filter.mpr ⟨hr, beq_self_eq_true _⟩
  · rintro ⟨c, l⟩ ⟨hmem, hin⟩
    obtain ⟨c0, _, heq⟩ := List.mem_map.mp hmem
    injection heq with hc0 hl0
    subst hc0
    subst hl0
    have hrc : catOfM m r.type = c0 := by
      have := (List.mem_filter.mp hin).2
      exact eq_of_beq this
    rw [hrc]

theorem catOfM_default {m : List (Str × Str)} {ty : Str}
    (h : lookupA m ty = none) : catOfM m ty = str "other" := by
  unfold catOfM
  rw [h]

/-! ### Comment-stripping lemmas (file 00's lexical extractor) -/

theorem stripLineAux_inComment {s : List Char} (h : '\n' ∉ s) :
    stripLineAux s true = [] := by
  induction s with
  | nil => rfl
  | cons c rest ih =>
    have hc : ¬ c = '\n' := fun hc => h (hc ▸ List.mem_cons_self _ _)
    have hrest : '\n' ∉ rest := fun hr => h (List.mem_cons_of_mem _ hr)
    unfold stripLineAux
    rw [if_neg hc, if_pos rfl]
    exact ih hrest

theorem stripLineAux_id {s : List Char} (h : '#' ∉ s) :
    stripLineAux s false = s := by
  induction s with
  | nil => rfl
  | cons c rest ih =>
    have hc : ¬ c = '#' := fun hc => h (hc ▸ List.mem_cons_self _ _)
    have hrest : '#' ∉ rest := fun hr => h (List.mem_cons_of_mem _ hr)
    unfold stripLineAux
    by_cases hn : c = '\n'
    · rw [if_pos hn, ih hrest]
    · rw [if_neg hn, if_neg Bool.false_ne_true, if_neg hc, ih hrest]

theorem findClose_append {s : List Char} (h : findClose s = none) (r : List Char) :
    findClose (s ++ '*' :: '/' :: r) = some r := by
  induction s with
  | nil => simp [findClose]
  | cons c rest ih =>
    cases rest with
    | nil => simp [findClose]
    | cons d rest2 =>
      simp only [List.cons_append] at h ⊢
      simp only [findClose] at h ⊢
      by_cases hcd : (c = '*' && d = '/') = true
      · rw [if_pos hcd] at h
        cases h
      · rw [if_neg hcd] at h
        rw [if_neg hcd]
        have hres := ih h
        rw [List.cons_append] at hres
        exact hres

theorem scanWithFuel_nil {α : Type} (m : List Char → Option (α × List Char)) (fuel : Nat) :
    scanWithFuel m fuel [] = [] := by
  cases fuel with
  | zero => rfl
  | succ k => rfl

theorem stripBlockFuel_nil (fuel : Nat) : stripBlockFuel fuel [] = [] := by
  cases fuel with
  | zero => rfl
  | succ k => rfl

theorem stripBlock_comment_only {s : List Char} (h : findClose s = none) :
    stripBlockComments ('/' :: '*' :: (s ++ '*' :: '/' :: [])) = [] := by
  unfold stripBlockComments
  have hlen : ('/' :: '*' :: (s ++ '*' :: '/' :: [])).length = (s.length + 3) + 1 := by
    simp
  rw [hlen]
  simp only [stripBlockFuel]
  rw [if_pos (by simp), findClose_append h]
  exact stripBlockFuel_nil _

/-! ### Inventory lemmas -/

theorem updateAssoc_configs_nil {acc : List (Str × List TF03.Inst)} {k : Str}
    {vs : List TF03.Inst}
    (hacc : ∀ e ∈ acc, ∀ i ∈ e.2, i.config = []) (hvs : ∀ i ∈ vs, i.config = []) :
    ∀ e ∈ updateAssoc acc k vs, ∀ i ∈ e.2, i.config = [] := by
  induction acc with
  | nil =>
    intro e he i hi
    cases he with
    | head => exact hvs i hi
    | tail _ h2 => cases h2
  | cons a rest ih =>
    intro e he i hi
    unfold updateAssoc at he
    by_cases hk : a.1 = k
    · rw [if_pos hk] at he
      cases he with
      | head =>
        cases List.mem_append.mp hi with
        | inl h2 => exact hacc a (List.mem_cons_self _ _) i h2
        | inr h2 => exact hvs i h2
      | tail _ h2 => exact hacc e (List.mem_cons_of_mem _ h2) i hi
    · rw [if_neg hk] at he
      cases he with
      | head => exact hacc a (List.mem_cons_self _ _) i hi
      | tail _ h2 =>
        exact ih (fun x hx j hj => hacc x (List.mem_cons_of_mem _ hx) j hj) e h2 i hi

theorem parse_with_regex_configs_nil (content : Str) :
    ∀ e ∈ TF03.parse_with_regex content, ∀ i ∈ e.2, i.config = [] := by
  unfold TF03.parse_with_regex
  generalize scanResources content = ms
  have hgen : ∀ (acc : List (Str × List TF03.Inst)),
      (∀ e ∈ acc, ∀ i ∈ e.2, i.config = []) →
      ∀ e ∈ ms.foldl
        (fun acc p => updateAssoc acc p.1 [{ name := p.2, config := [] }]) acc,
        ∀ i ∈ e.2, i.config = [] := by
    induction ms with
    | nil => intro acc hacc; exact hacc
    | cons p rest ih =>
      intro acc hacc
      rw [List.foldl_cons]
      refine ih _ (updateAssoc_configs_nil hacc ?_)
      intro i hi
      cases hi with
      | head => rfl
      | tail _ h2 => cases h2
  exact hgen [] (fun e he => absurd he (List.not_mem_nil e))

/-! ### Flattening and merging lemmas (for the classification-merge property) -/

/-- The declarations contributed by one inventory entry. -/
def entryDecls (k : Str) (vs : List TF03.Inst) : List Resource :=
  vs.map (fun i => Resource.mk k i.name i.config)

theorem flattenInv_cons (e : Str × List TF03.Inst) (rest : TF03.Inventory) :
    flattenInv (e :: rest) = entryDecls e.1 e.2 ++ flattenInv rest := by
  unfold flattenInv entryDecls
  rw [List.map_cons, List.flatten_cons]

theorem flattenInv_updateAssoc (inv : TF03.Inventory) (k : Str) (vs : List TF03.Inst) :
    (flattenInv (updateAssoc inv k vs)).Perm (flattenInv inv ++ entryDecls k vs) := by
  induction inv with
  | nil =>
    unfold updateAssoc
    rw [flattenInv_cons]
    simp [flattenInv]
  | cons a rest ih =>
    unfold updateAssoc
    by_cases hk : a.1 = k
    · rw [if_pos hk]
      rw [flattenInv_cons, flattenInv_cons]
      have hmap : entryDecls a.1 (a.2 ++ vs) = entryDecls a.1 a.2 ++ entryDecls a.1 vs := by
        unfold entryDecls
        rw [List.map_append]
      rw [hmap, hk, List.append_assoc, List.append_assoc]
      exact List.Perm.append_left _ List.perm_append_comm
    · rw [if_neg hk]
      rw [flattenInv_cons, flattenInv_cons, List.append_assoc]
      exact List.Perm.append_left _ ih

theorem flattenInv_merge (f1 f2 : TF03.Inventory) :
    (flattenInv (TF03.mergeResources f1 f2)).Perm (flattenInv f1 ++ flattenInv f2) := by
  induction f2 generalizing f1 with
  | nil =>
    unfold TF03.mergeResources
    simp [flattenInv]
  | cons e rest ih =>
    unfold TF03.mergeResources at ih ⊢
    rw [List.foldl_cons]
    refine (ih _).trans ?_
    refine ((flattenInv_updateAssoc f1 e.1 e.2).append_right _).trans ?_
    rw [flattenInv_cons, ← List.append_assoc]

/-! ### All-unmapped inventories (for the placeholder/empty-edge behavior) -/

theorem entriesFor_unknown_ne_other {resources : TF03.Inventory} {c : Str}
    (hall : ∀ e ∈ resources, lookupA TF03.resource_mappings e.1 = none)
    (hc : ¬ c = str "other") : TF03.entriesFor resources c = [] := by
  induction resources with
  | nil => rfl
  | cons x rest ih =>
    have hx := hall x (List.mem_cons_self _ _)
    have hrest : ∀ e ∈ rest, lookupA TF03.resource_mappings e.1 = none :=
      fun e he => hall e (List.mem_cons_of_mem _ he)
    unfold TF03.entriesFor at ih ⊢
    rw [List.map_cons, List.flatten_cons, ih hrest, List.append_nil]
    unfold TF03.entryOf
    rw [hx, if_neg hc]

theorem entriesFor_unknown_other {resources : TF03.Inventory}
    (hall : ∀ e ∈ resources, lookupA TF03.resource_mappings e.1 = none) :
    (TF03.entriesFor resources (str "other")).length = resources.length := by
  induction resources with
  | nil => rfl
  | cons x rest ih =>
    have hx := hall x (List.mem_cons_self _ _)
    have hrest : ∀ e ∈ rest, lookupA TF03.resource_mappings e.1 = none :=
      fun e he => hall e (List.mem_cons_of_mem _ he)
    unfold TF03.entriesFor at ih ⊢
    rw [List.map_cons, List.flatten_cons, List.length_append, ih hrest]
    unfold TF03.entryOf
    rw [hx, if_pos rfl]
    simp [Nat.add_comm]

theorem nonEmpty_unknown {resources : TF03.Inventory} (hne : resources ≠ [])
    (hall : ∀ e ∈ resources, lookupA TF03.resource_mappings e.1 = none) :
    TF03.nonEmptyComponents resources =
      [(str "other", TF03.entriesFor resources (str "other"))] := by
  have h1 : TF03.entriesFor resources (str "compute") = [] :=
    entriesFor_unknown_ne_other hall (by decide)
  have h2 : TF03.entriesFor resources (str "database") = [] :=
    entriesFor_unknown_ne_other hall (by decide)
  have h3 : TF03.entriesFor resources (str "network") = [] :=
    entriesFor_unknown_ne_other hall (by decide)
  have h4 : TF03.entriesFor resources (str "storage") = [] :=
    entriesFor_unknown_ne_other hall (by decide)
  have h5 : TF03.entriesFor resources (str "security") = [] :=
    entriesFor_unknown_ne_other hall (by decide)
  have hlen0 : (TF03.entriesFor resources (str "other")).length ≠ 0 := by
    rw [entriesFor_unknown_other hall]
    intro h0
    exact hne (List.length_eq_zero.mp h0)
  have h6 : (TF03.entriesFor resources (str "other")).isEmpty = false := by
    cases hx : TF03.entriesFor resources (str "other") with
    | nil => rw [hx] at hlen0; exact absurd rfl hlen0
    | cons a l => rfl
  unfold TF03.nonEmptyComponents TF03.get_diagram_components TF03.categories
  rw [List.map_cons, List.map_cons, List.map_cons, List.map_cons, List.map_cons,
      List.map_cons, List.map_nil]
  rw [h1, h2, h3, h4, h5]
  simp [List.filter, h6]

/-! ### Comment-insertion lemmas

Inserting a whole line comment, or a self-contained block comment, anywhere
into a text leaves the stripped text (and hence the scanned declarations)
unchanged.  These drive the comment-exclusion claim on texts that mix code
and comments. -/

theorem stripLineAux_newline (rest : List Char) (b : Bool) :
    stripLineAux ('\n' :: rest) b = '\n' :: stripLineAux rest false := by
  simp [stripLineAux]

theorem stripLineAux_hash (rest : List Char) :
    stripLineAux ('#' :: rest) false = stripLineAux rest true := by
  simp [stripLineAux]

theorem stripLineAux_true_skip (c : Char) (rest : List Char) (hn : ¬ c = '\n') :
    stripLineAux (c :: rest) true = stripLineAux rest true := by
  simp [stripLineAux, hn]

theorem stripLineAux_other (c : Char) (rest : List Char) (hn : ¬ c = '\n')
    (hh : ¬ c = '#') :
    stripLineAux (c :: rest) false = c :: stripLineAux rest false := by
  simp [stripLineAux, hn, hh]

/-- In comment state, everything up to the next newline is dropped. -/
theorem stripLineAux_skip {mid : List Char} (h : '\n' ∉ mid) (rest : List Char) :
    stripLineAux (mid ++ rest) true = stripLineAux rest true := by
  induction mid with
  | nil => rfl
  | cons c mid' ih =>
    have hc : ¬ c = '\n' := fun hc => h (hc ▸ List.mem_cons_self _ _)
    have h' : '\n' ∉ mid' := fun hm => h (List.mem_cons_of_mem _ hm)
    rw [List.cons_append, stripLineAux_true_skip c _ hc, ih h']

/-- Inserting a newline-terminated line comment anywhere leaves the
line-stripped text unchanged. -/
theorem stripLineAux_insert {mid : List Char} (h : '\n' ∉ mid) :
    ∀ (pre post : List Char) (b : Bool),
      stripLineAux (pre ++ '#' :: (mid ++ '\n' :: post)) b =
      stripLineAux (pre ++ '\n' :: post) b := by
  intro pre
  induction pre with
  | nil =>
    intro post b
    simp only [List.nil_append]
    cases b with
    | false =>
      rw [stripLineAux_hash, stripLineAux_skip h, stripLineAux_newline,
        stripLineAux_newline]
    | true =>
      rw [stripLineAux_true_skip _ _ (by decide), stripLineAux_skip h,
        stripLineAux_newline]
  | cons c pre' ih =>
    intro post b
    simp only [List.cons_append]
    cases b with
    | true =>
      by_cases hn : c = '\n'
      · rw [hn, stripLineAux_newline, stripLineAux_newline, ih]
      · rw [stripLineAux_true_skip _ _ hn, stripLineAux_true_skip _ _ hn, ih]
    | false =>
      by_cases hn : c = '\n'
      · rw [hn, stripLineAux_newline, stripLineAux_newline, ih]
      · by_cases hh : c = '#'
        · rw [hh, stripLineAux_hash, stripLineAux_hash, ih]
        · rw [stripLineAux_other _ _ hn hh, stripLineAux_other _ _ hn hh, ih]

/-- A line comment at the very end of the text (no terminating newline) is
dropped entirely. -/
theorem stripLineAux_insert_eof {mid : List Char} (h : '\n' ∉ mid) :
    ∀ (pre : List Char) (b : Bool),
      stripLineAux (pre ++ '#' :: mid) b = stripLineAux pre b := by
  intro pre
  induction pre with
  | nil =>
    intro b
    simp only [List.nil_append]
    cases b with
    | false => rw [stripLineAux_hash, stripLineAux_inComment h]; rfl
    | true => rw [stripLineAux_true_skip _ _ (by decide), stripLineAux_inComment h]; rfl
  | cons c pre' ih =>
    intro b
    simp only [List.cons_append]
    cases b with
    | true =>
      by_cases hn : c = '\n'
      · rw [hn, stripLineAux_newline, stripLineAux_newline, ih]
      · rw [stripLineAux_true_skip _ _ hn, stripLineAux_true_skip _ _ hn, ih]
    | false =>
      by_cases hn : c = '\n'
      · rw [hn, stripLineAux_newline, stripLineAux_newline, ih]
      · by_cases hh : c = '#'
        · rw [hh, stripLineAux_hash, stripLineAux_hash, ih]
        · rw [stripLineAux_other _ _ hn hh, stripLineAux_other _ _ hn hh, ih]

/-- Line stripping distributes over a hash-free prefix. -/
theorem stripLineAux_append {a : List Char} (h : '#' ∉ a) (b : List Char) :
    stripLineAux (a ++ b) false = a ++ stripLineAux b false := by
  induction a with
  | nil => rfl
  | cons c a' ih =>
    have hc : ¬ c = '#' := fun hc => h (hc ▸ List.mem_cons_self _ _)
    have h' : '#' ∉ a' := fun hm => h (List.mem_cons_of_mem _ hm)
    rw [List.cons_append]
    by_cases hn : c = '\n'
    · rw [hn, stripLineAux_newline, ih h']
      rfl
    · rw [stripLineAux_other _ _ hn hc, ih h']
      rfl

theorem findClose_some_length : ∀ {l r : List Char}, findClose l = some r →
    r.length < l.length := by
  intro l
  induction l with
  | nil => intro r h; simp [findClose] at h
  | cons c rest ih =>
    intro r h
    cases rest with
    | nil => simp [findClose] at h
    | cons d rest2 =>
      simp only [findClose] at h
      by_cases hcd : (c = '*' && d = '/') = true
      · rw [if_pos hcd] at h
        injection h with he
        subst he
        simp only [List.length_cons]
        omega
      · rw [if_neg hcd] at h
        have hr := ih h
        simp only [List.length_cons] at hr ⊢
        omega

/-- The fuel is irrelevant once it covers the input length. -/
theorem stripBlockFuel_congr : ∀ (f1 f2 : Nat) (l : List Char), l.length ≤ f1 →
    l.length ≤ f2 → stripBlockFuel f1 l = stripBlockFuel f2 l := by
  intro f1
  induction f1 with
  | zero =>
    intro f2 l h1 h2
    have hl : l = [] := List.eq_nil_of_length_eq_zero (Nat.le_zero.mp h1)
    subst hl
    rw [stripBlockFuel_nil, stripBlockFuel_nil]
  | succ f1' ih =>
    intro f2 l h1 h2
    cases l with
    | nil => rw [stripBlockFuel_nil, stripBlockFuel_nil]
    | cons c rest =>
      cases f2 with
      | zero =>
        exfalso
        simp only [List.length_cons] at h2
        omega
      | succ f2' =>
        cases rest with
        | nil => rfl
        | cons d rest2 =>
          simp only [stripBlockFuel]
          simp only [List.length_cons] at h1 h2
          by_cases hcd : c = '/' ∧ d = '*'
          · rw [if_pos hcd, if_pos hcd]
            cases hfc : findClose rest2 with
            | none => rfl
            | some rest3 =>
              have hlt := findClose_some_length hfc
              exact ih f2' rest3 (by omega) (by omega)
          · rw [if_neg hcd, if_neg hcd]
            rw [ih f2' (d :: rest2) (by simp only [List.length_cons]; omega)
              (by simp only [List.length_cons]; omega)]

theorem stripBlockFuel_cons_step (fuel : Nat) (c d : Char) (rest2 : List Char)
    (hcd : ¬(c = '/' ∧ d = '*')) :
    stripBlockFuel (fuel + 1) (c :: d :: rest2) = c :: stripBlockFuel fuel (d :: rest2) := by
  simp only [stripBlockFuel]
  rw [if_neg hcd]

theorem stripBlockFuel_open_step (fuel : Nat) {rest2 r : List Char}
    (hfc : findClose rest2 = some r) :
    stripBlockFuel (fuel + 1) ('/' :: '*' :: rest2) = stripBlockFuel fuel r := by
  simp only [stripBlockFuel]
  rw [if_pos (by simp), hfc]

theorem hasOpen_tail {c : Char} {l : List Char} (h : hasOpen (c :: l) = false) :
    hasOpen l = false := by
  cases l with
  | nil => rfl
  | cons d rest =>
    simp only [hasOpen] at h
    by_cases hcd : (c = '/' && d = '*') = true
    · rw [if_pos hcd] at h
      exact Bool.noConfusion h
    · rw [if_neg hcd] at h
      exact h

theorem hasOpen_head {c d : Char} {rest : List Char}
    (h : hasOpen (c :: d :: rest) = false) : ¬(c = '/' ∧ d = '*') := by
  intro hp
  simp only [hasOpen] at h
  rw [if_pos (by simp [hp.1, hp.2])] at h
  exact Bool.noConfusion h

/-- Block stripping copies a prefix that contains no comment opener and does
not end in a slash (so no opener can straddle the boundary). -/
theorem stripBlock_append_pre : ∀ (pre : List Char), hasOpen pre = false →
    lastIsSlash pre = false → ∀ (q : List Char),
    stripBlockComments (pre ++ q) = pre ++ stripBlockComments q := by
  intro pre
  induction pre with
  | nil => intro _ _ q; rfl
  | cons c pre' ih =>
    intro ho hl q
    rw [List.cons_append]
    unfold stripBlockComments
    simp only [List.length_cons]
    cases hpq : pre' ++ q with
    | nil =>
      have hp : pre' = [] := (List.append_eq_nil.mp hpq).1
      have hq : q = [] := (List.append_eq_nil.mp hpq).2
      subst hp
      subst hq
      rfl
    | cons d rest2 =>
      have hcd : ¬(c = '/' ∧ d = '*') := by
        cases pre' with
        | nil =>
          intro hpair
          simp only [List.nil_append] at hpq
          simp only [lastIsSlash] at hl
          rw [hpair.1] at hl
          simp at hl
        | cons p2 pre'' =>
          intro hpair
          rw [List.cons_append, List.cons_eq_cons] at hpq
          exact hasOpen_head ho ⟨hpair.1, hpq.1.trans hpair.2⟩
      have ho' : hasOpen pre' = false := hasOpen_tail ho
      have hl' : lastIsSlash pre' = false := by
        cases pre' with
        | nil => rfl
        | cons p2 pre'' => exact hl
      rw [stripBlockFuel_cons_step _ _ _ _ hcd]
      have hrec : stripBlockFuel ((d :: rest2).length) (d :: rest2) =
          stripBlockComments (d :: rest2) := rfl
      rw [hrec, ← hpq, ih ho' hl' q]
      rfl

/-- A self-contained block comment at the head of the text is removed. -/
theorem stripBlock_removes {mid : List Char} (h : findClose mid = none)
    (q : List Char) :
    stripBlockComments ('/' :: '*' :: (mid ++ '*' :: '/' :: q)) =
    stripBlockComments q := by
  unfold stripBlockComments
  simp only [List.length_cons]
  rw [stripBlockFuel_open_step _ (findClose_append h q)]
  exact stripBlockFuel_congr _ _ q
    (by simp only [List.length_append, List.length_cons]; omega) (le_refl _)

theorem hash_not_mem_block {pre mid : List Char} (h1 : '#' ∉ pre) (h2 : '#' ∉ mid) :
    '#' ∉ pre ++ '/' :: '*' :: (mid ++ '*' :: '/' :: []) := by
  intro hm
  rcases List.mem_append.mp hm with h | h
  · exact h1 h
  · rcases List.mem_cons.mp h with h | h
    · exact absurd h (by decide)
    · rcases List.mem_cons.mp h with h | h
      · exact absurd h (by decide)
      · rcases List.mem_append.mp h with h | h
        · exact h2 h
        · rcases List.mem_cons.mp h with h | h
          · exact absurd h (by decide)
          · rcases List.mem_cons.mp h with h | h
            · exact absurd h (by decide)
            · exact absurd h (List.not_mem_nil _)

/-- Inserting a newline-terminated line comment anywhere leaves the
comment-stripped text unchanged. -/
theorem stripped_line_insert {mid : List Char} (h : '\n' ∉ mid)
    (pre post : List Char) :
    stripLineComments (pre ++ '#' :: (mid ++ '\n' :: post)) =
    stripLineComments (pre ++ '\n' :: post) :=
  stripLineAux_insert h pre post false

/-- A line comment at the end of the text is dropped entirely. -/
theorem stripped_line_insert_eof {mid : List Char} (h : '\n' ∉ mid)
    (pre : List Char) :
    stripLineComments (pre ++ '#' :: mid) = stripLineComments pre :=
  stripLineAux_insert_eof h pre false

/-- Inserting a self-contained block comment after a hash-free, opener-free
prefix leaves the fully stripped text unchanged. -/
theorem stripped_block_insert {pre mid : List Char} (post : List Char)
    (h1 : '#' ∉ pre) (h2 : '#' ∉ mid) (ho : hasOpen pre = false)
    (hl : lastIsSlash pre = false) (hf : findClose mid = none) :
    stripBlockComments (stripLineComments (pre ++ '/' :: '*' :: (mid ++ '*' :: '/' :: post))) =
    stripBlockComments (stripLineComments (pre ++ post)) := by
  have e1 : pre ++ '/' :: '*' :: (mid ++ '*' :: '/' :: post) =
      (pre ++ '/' :: '*' :: (mid ++ '*' :: '/' :: [])) ++ post := by simp
  unfold stripLineComments
  rw [e1, stripLineAux_append (hash_not_mem_block h1 h2),
    stripLineAux_append h1]
  have e2 : (pre ++ '/' :: '*' :: (mid ++ '*' :: '/' :: [])) ++ stripLineAux post false =
      pre ++ '/' :: '*' :: (mid ++ '*' :: '/' :: stripLineAux post false) := by simp
  rw [e2, stripBlock_append_pre pre ho hl _, stripBlock_removes hf,
    stripBlock_append_pre pre ho hl _]

/-! ### Empty attributes in files 01 and 04 -/

theorem updateAssoc_configs_nil4 {acc : List (Str × List TF04.Inst)} {k : Str}
    {vs : List TF04.Inst}
    (hacc : ∀ e ∈ acc, ∀ i ∈ e.2, i.config = []) (hvs : ∀ i ∈ vs, i.config = []) :
    ∀ e ∈ updateAssoc acc k vs, ∀ i ∈ e.2, i.config = [] := by
  induction acc with
  | nil =>
    intro e he i hi
    cases he with
    | head => exact hvs i hi
    | tail _ h2 => cases h2
  | cons a rest ih =>
    intro e he i hi
    unfold updateAssoc at he
    by_cases hk : a.1 = k
    · rw [if_pos hk] at he
      cases he with
      | head =>
        cases List.mem_append.mp hi with
        | inl h2 => exact hacc a (List.mem_cons_self _ _) i h2
        | inr h2 => exact hvs i h2
      | tail _ h2 => exact hacc e (List.mem_cons_of_mem _ h2) i hi
    · rw [if_neg hk] at he
      cases he with
      | head => exact hacc a (List.mem_cons_self _ _) i hi
      | tail _ h2 =>
        exact ih (fun x hx j hj => hacc x (List.mem_cons_of_mem _ hx) j hj) e h2 i hi

/-- Every item any of the six file-04 patterns collects has an empty config. -/
theorem regexItems_config_nil (content : Str) :
    ∀ x ∈ TF04.regexItems content, x.2.config = [] := by
  intro x hx
  unfold TF04.regexItems at hx
  rcases List.mem_append.mp hx with h | h
  · rcases List.mem_append.mp h with h | h
    · rcases List.mem_append.mp h with h | h
      · rcases List.mem_append.mp h with h | h
        · rcases List.mem_append.mp h with h | h
          · obtain ⟨p, hp, he⟩ := List.mem_map.mp h
            subst he
            rfl
          · obtain ⟨p, hp, he⟩ := List.mem_map.mp h
            subst he
            rfl
        · obtain ⟨p, hp, he⟩ := List.mem_map.mp h
          subst he
          rfl
      · obtain ⟨p, hp, he⟩ := List.mem_map.mp h
        subst he
        rfl
    · obtain ⟨p, hp, he⟩ := List.mem_map.mp h
      subst he
      rfl
  · obtain ⟨p, hp, he⟩ := List.mem_map.mp h
    subst he
    rfl

theorem parse_with_regex4_configs_nil (content : Str) :
    ∀ e ∈ TF04.parse_with_regex content, ∀ i ∈ e.2, i.config = [] := by
  unfold TF04.parse_with_regex
  have hitems := regexItems_config_nil content
  generalize hgen : TF04.regexItems content = ms
  rw [hgen] at hitems
  have hfold : ∀ (ms' : List (Str × TF04.Inst)) (acc : List (Str × List TF04.Inst)),
      (∀ x ∈ ms', x.2.config = []) →
      (∀ e ∈ acc, ∀ i ∈ e.2, i.config = []) →
      ∀ e ∈ ms'.foldl (fun acc e => updateAssoc acc e.1 [e.2]) acc,
        ∀ i ∈ e.2, i.config = [] := by
    intro ms'
    induction ms' with
    | nil => intro acc _ hacc; exact hacc
    | cons p rest ih =>
      intro acc hms hacc
      rw [List.foldl_cons]
      refine ih _ (fun x hx => hms x (List.mem_cons_of_mem _ hx))
        (updateAssoc_configs_nil4 hacc ?_)
      intro i hi
      cases hi with
      | head => exact hms p (List.mem_cons_self _ _)
      | tail _ h2 => cases h2
  exact hfold ms [] hitems (fun e he => absurd he (List.not_mem_nil e))

/-! ### Concrete inputs used by the witnesses and counterexamples -/

/-- A resource declaration occurring only inside a `#` line comment. -/
def commentedInput : Str := str "# resource \"aws_instance\" \"web\" \x7b"

/-- A plain resource declaration. -/
def plainResourceInput : Str := str "resource \"aws_instance\" \"web\" \x7b"

/-- A flat inventory with one compute and one database declaration. -/
def exampleResources00 : List Resource :=
  [{ type := str "aws_instance", name := str "web", config := [] },
   { type := str "aws_db_instance", name := str "db", config := [] }]

/-- A per-type inventory with one compute and one database declaration. -/
def exampleInventory03 : TF03.Inventory :=
  [(str "aws_instance", [{ name := str "web", config := [] }]),
   (str "aws_db_instance", [{ name := str "db", config := [] }])]

/-- An inventory whose two resource types appear in no mapping table. -/
def allOtherInventory : TF03.Inventory :=
  [(str "checkly_check", [{ name := str "c1", config := [] }]),
   (str "checkly_dashboard", [{ name := str "d1", config := [] }])]

/-- Component layers populating only `network` and `integration`. -/
def netIntegrationComponents : List (Str × List Node) :=
  [(str "network", [(str "network", str "lb")]),
   (str "integration", [(str "integration", str "sqs")])]

/-- Component layers populating only `network` and `compute`. -/
def netComputeComponents : List (Str × List Node) :=
  [(str "network", [(str "network", str "lb")]),
   (str "compute", [(str "compute", str "web")])]

/-- First file inventory of the merge counterexample. -/
def mergeF1 : TF03.Inventory :=
  [(str "aws_instance", [{ name := str "b1", config := [] }])]

/-- Second file inventory of the merge counterexample: a new compute type
first, then more instances of the first file's type. -/
def mergeF2 : TF03.Inventory :=
  [(str "aws_lambda_function", [{ name := str "a1", config := [] }]),
   (str "aws_instance", [{ name := str "b2", config := [] }])]

/-! ### Claim theorems -/

/-- C1: for every input text on which the structured (hcl2) extractor fails
(`none` models the exception), the parse orchestrator of files 00 and 04
returns exactly the lexical (regex) extractor's result for that text; being a
total function, the orchestrator itself never raises. -/
theorem c1_parse_falls_back_to_lexical_on_structured_failure :
    (∀ content : Str,
       TF00.parse_terraform_file true none content = TF00.parse_terraform_file_regex content) ∧
    (∀ content : Str,
       TF04.parse_terraform_file true none content = TF04.parse_with_regex content) := by
  constructor
  · intro content
    rfl
  · intro content
    rfl

/-- C5 counterexample: on a structured-parse failure the file 00 structured
extractor returns the empty inventory to its caller instead of propagating the
failure, and the file 03 parser falls back to the lexical extractor internally
(here recovering a declaration), so the failure never reaches the caller. -/
theorem c5_counterexample :
    TF00.parse_terraform_file_hcl2 none = [] ∧
    TF03.parse_terraform_file none plainResourceInput =
      [(str "aws_instance", [{ name := str "web", config := [] }])] ∧
    TF03.parse_terraform_file none plainResourceInput ≠ [] := by
  decide

/-- C5 amended: on structured-parse failure the structured extractors of files
00 and 01 catch the exception and return an empty inventory to the caller, and
file 03's `parse_terraform_file` catches it and falls back to its lexical
extractor inside the same function; no variant propagates the failure. -/
theorem c5_amended_structured_failure_not_propagated :
    (TF00.parse_terraform_file_hcl2 none = [] ∧ TF01.parse_terraform_with_hcl2 none = []) ∧
    (∀ content : Str, TF03.parse_terraform_file none content = TF03.parse_with_regex content) :=
  ⟨⟨rfl, rfl⟩, fun _ => rfl⟩

/-- C10: when the structured extractor succeeds but its extraction yields zero
resource declarations, the orchestrators of files 00 and 01 discard the empty
structured result and return the lexical extractor's output instead. -/
theorem c10_empty_structured_result_triggers_fallback :
    (∀ (parsed : List (Str × List (Str × Config))) (content : Str),
       TF00.extract_resources parsed = [] →
       TF00.parse_terraform_file true (some parsed) content =
         TF00.parse_terraform_file_regex content) ∧
    (∀ (parsed : List (Str × List (Str × Config))) (content : Str),
       TF01.extract_resources parsed = [] →
       TF01.parse_terraform_file true (some parsed) content =
         TF01.parse_terraform_with_regex content) := by
  constructor
  · intro parsed content hempty
    simp [TF00.parse_terraform_file, TF00.parse_terraform_file_hcl2, hempty]
  · intro parsed content hempty
    simp [TF01.parse_terraform_file, TF01.parse_terraform_with_hcl2, hempty]

/-- C10 witness at a concrete empty structured result and concrete text. -/
theorem c10_witness :
    TF00.extract_resources [] = [] ∧
    TF00.parse_terraform_file true (some []) plainResourceInput =
      TF00.parse_terraform_file_regex plainResourceInput :=
  ⟨rfl, c10_empty_structured_result_triggers_fallback.1 [] plainResourceInput rfl⟩

/-- C2: the classifiers of files 00 and 01 are total and partition the
inventory: every declaration lands in exactly one entry of the fixed category
dict, and a type absent from the lookup table is assigned `other`. -/
theorem c2_classifier_total_partition :
    (∀ (resources : List Resource) (r : Resource), r ∈ resources →
       ∃! p, p ∈ TF00.categorize_resources resources ∧ r ∈ p.2) ∧
    (∀ ty : Str, lookupA TF00.category_map ty = none → TF00.catOf ty = str "other") ∧
    (∀ (resources : List Resource) (r : Resource), r ∈ resources →
       ∃! p, p ∈ TF01.categorize_resources resources ∧ r ∈ p.2) ∧
    (∀ ty : Str, lookupA TF01.category_map ty = none → TF01.catOf ty = str "other") := by
  refine ⟨?_, ?_, ?_, ?_⟩
  · intro resources r hr
    exact @classify_exactly_one TF00.category_map TF00.categories
      (by decide) (by decide) resources r hr
  · intro ty h
    exact catOfM_default h
  · intro resources r hr
    exact @classify_exactly_one TF01.category_map TF01.categories
      (by decide) (by decide) resources r hr
  · intro ty h
    exact catOfM_default h

/-- C2 witness: a concrete declaration sits in exactly one category, and a
concrete unknown type defaults to `other`. -/
theorem c2_witness :
    ({ type := str "aws_instance", name := str "web", config := [] } ∈ exampleResources00 ∧
     ∃! p, p ∈ TF00.categorize_resources exampleResources00 ∧
       ({ type := str "aws_instance", name := str "web", config := [] } : Resource) ∈ p.2) ∧
    (lookupA TF00.category_map (str "checkly_check") = none ∧
     TF00.catOf (str "checkly_check") = str "other") :=
  ⟨⟨by decide, c2_classifier_total_partition.1 exampleResources00 _ (by decide)⟩,
   ⟨by decide, c2_classifier_total_partition.2.1 (str "checkly_check") (by decide)⟩⟩

/-- C3: every edge the topology synthesizer creates connects two nodes that
are present in the synthesized node list — a rule whose source or target
category has no materialized nodes creates no edge (file 03 graph level, and
file 04 connection level). -/
theorem c3_no_dangling_edges :
    (∀ (resources : TF03.Inventory) (e : Node × Node),
       e ∈ (TF03.create_architecture_diagram resources).edges →
       e.1 ∈ (TF03.create_architecture_diagram resources).nodes ∧
       e.2 ∈ (TF03.create_architecture_diagram resources).nodes) ∧
    (∀ (component_layers : List (Str × List Node)) (e : Node × Node),
       e ∈ TF04.create_connections component_layers →
       e.1 ∈ allNodes component_layers ∧ e.2 ∈ allNodes component_layers) := by
  constructor
  · intro resources e he
    unfold TF03.create_architecture_diagram at he ⊢
    by_cases h1 : resources.isEmpty
    · rw [if_pos h1] at he
      cases he
    · rw [if_neg h1] at he ⊢
      by_cases h2 : (TF03.nonEmptyComponents resources).isEmpty
      · rw [if_pos h2] at he
        cases he
      · rw [if_neg h2] at he ⊢
        exact apply_patterns_endpoints he
  · intro component_layers e he
    exact apply_patterns_endpoints he

/-- C3 witness: the concrete compute-to-database edge of a concrete graph has
both endpoints in that graph's node list. -/
theorem c3_witness :
    ((str "compute", str "aws_instance\nweb"), (str "database", str "aws_db_instance\ndb")) ∈
      (TF03.create_architecture_diagram exampleInventory03).edges ∧
    ((str "compute", str "aws_instance\nweb") ∈
       (TF03.create_architecture_diagram exampleInventory03).nodes ∧
     (str "database", str "aws_db_instance\ndb") ∈
       (TF03.create_architecture_diagram exampleInventory03).nodes) :=
  ⟨by decide,
   c3_no_dangling_edges.1 exampleInventory03
     ((str "compute", str "aws_instance\nweb"), (str "database", str "aws_db_instance\ndb"))
     (by decide)⟩

/-- C4 counterexample: with `network` and `integration` populated, file 04
creates a network-to-integration edge, a rule pair that is not in the fixed
seven-rule list the claim states. -/
theorem c4_counterexample :
    TF04.create_connections netIntegrationComponents =
      [((str "network", str "lb"), (str "integration", str "sqs"))] ∧
    (str "network", str "integration") ∉ spec_claimed_connection_rules := by
  decide

/-- C4 amended: each variant applies its own fixed ordered rule list — file
03's six rules (`other` to `compute` in place of the claimed integration and
monitoring rules) and file 04's nine rules (the claimed seven plus
network-to-integration and application-to-compute, in its order).  Every
created edge's category pair is drawn from that list in order, each applied
rule connects the first node of the source category to the first node of the
target category, and at most one edge is created per ordered category pair
(the created category pairs are pairwise distinct). -/
theorem c4_amended_per_variant_rule_lists :
    ∀ components : List (Str × List Node), WFComponents components →
      (List.Sublist ((TF03.create_logical_connections components).map
         (fun e => (e.1.1, e.2.1))) TF03.connection_patterns ∧
       (∀ e ∈ TF03.create_logical_connections components,
         ∃ srest trest, lookupA components e.1.1 = some (e.1 :: srest) ∧
           lookupA components e.2.1 = some (e.2 :: trest)) ∧
       ((TF03.create_logical_connections components).map (fun e => (e.1.1, e.2.1))).Nodup) ∧
      (List.Sublist ((TF04.create_connections components).map
         (fun e => (e.1.1, e.2.1))) TF04.connection_patterns ∧
       (∀ e ∈ TF04.create_connections components,
         ∃ srest trest, lookupA components e.1.1 = some (e.1 :: srest) ∧
           lookupA components e.2.1 = some (e.2 :: trest)) ∧
       ((TF04.create_connections components).map (fun e => (e.1.1, e.2.1))).Nodup) := by
  intro components hw
  have hsub3 : List.Sublist ((TF03.create_logical_connections components).map
      (fun e => (e.1.1, e.2.1))) TF03.connection_patterns :=
    filterMap_map_sublist (connectRule components) (fun e => (e.1.1, e.2.1))
      TF03.connection_patterns (fun p _ e he => apply_patterns_edge_cats hw he)
  have hsub4 : List.Sublist ((TF04.create_connections components).map
      (fun e => (e.1.1, e.2.1))) TF04.connection_patterns :=
    filterMap_map_sublist (connectRule components) (fun e => (e.1.1, e.2.1))
      TF04.connection_patterns (fun p _ e he => apply_patterns_edge_cats hw he)
  refine ⟨⟨hsub3, ?_, ?_⟩, hsub4, ?_, ?_⟩
  · intro e he
    exact apply_patterns_first_nodes hw he
  · have hnd : TF03.connection_patterns.Nodup := by decide
    exact hsub3.nodup hnd
  · intro e he
    exact apply_patterns_first_nodes hw he
  · have hnd : TF04.connection_patterns.Nodup := by decide
    exact hsub4.nodup hnd

/-- C4 amended witness at the concrete network/integration components. -/
theorem c4_amended_witness :
    WFComponents netIntegrationComponents ∧
    List.Sublist ((TF04.create_connections netIntegrationComponents).map
      (fun e => (e.1.1, e.2.1))) TF04.connection_patterns :=
  ⟨by decide,
   (c4_amended_per_variant_rule_lists netIntegrationComponents (by decide)).2.1⟩

/-- C9: the synthesized graphs are acyclic — following the rule edges from any
node never returns to it, because every rule points from a shallower layer to
a strictly deeper one (file 03 graph level; file 04 for any well-formed
component layers). -/
theorem c9_no_cycles :
    (∀ (resources : TF03.Inventory) (n m : Node),
       Reaches (TF03.create_architecture_diagram resources).edges n m → n ≠ m) ∧
    (∀ component_layers : List (Str × List Node), WFComponents component_layers →
       ∀ n m : Node, Reaches (TF04.create_connections component_layers) n m → n ≠ m) := by
  constructor
  · intro resources n m h
    refine reaches_ne ?_ h
    intro e he
    unfold TF03.create_architecture_diagram at he
    by_cases h1 : resources.isEmpty
    · rw [if_pos h1] at he
      cases he
    · rw [if_neg h1] at he
      by_cases h2 : (TF03.nonEmptyComponents resources).isEmpty
      · rw [if_pos h2] at he
        cases he
      · rw [if_neg h2] at he
        refine apply_patterns_rank ?_ ?_ e he
        · decide
        · exact wf_filter (wf_get_diagram_components resources) _
  · intro component_layers hw n m h
    refine reaches_ne ?_ h
    intro e he
    refine apply_patterns_rank ?_ hw e he
    decide

/-- C9 witness: a concrete network node reaches a concrete compute node along
the created edges, and the two nodes are distinct. -/
theorem c9_witness :
    WFComponents netComputeComponents ∧
    Reaches (TF04.create_connections netComputeComponents)
      (str "network", str "lb") (str "compute", str "web") ∧
    ((str "network", str "lb") : Node) ≠ (str "compute", str "web") :=
  ⟨by decide, Reaches.step (by decide),
   c9_no_cycles.2 netComputeComponents (by decide) _ _ (Reaches.step (by decide))⟩

/-- C6 counterexample: an inventory that classifies entirely into `other`
yields a graph with one node per unmapped type (here two), not a single
placeholder node. -/
theorem c6_counterexample :
    (TF03.create_architecture_diagram allOtherInventory).nodes.length = 2 ∧
    ¬ (TF03.create_architecture_diagram allOtherInventory).nodes.length = 1 := by
  decide

/-- C6 amended: in file 03 an empty inventory yields the single `General`
placeholder node with zero edges; a non-empty inventory that classifies
entirely into `other` yields one generic node per resource type (as many
nodes as inventory entries, never a single placeholder and never an empty
graph) and zero rule edges.  File 00's `generate_architecture_diagram`, by
contrast, returns early for an empty inventory — producing no graph at all —
and produces a diagram for every non-empty inventory. -/
theorem c6_amended_placeholder_and_all_other :
    ((TF03.create_architecture_diagram []).nodes =
        [(str "general", str "No Resources Found")] ∧
     (TF03.create_architecture_diagram []).edges = []) ∧
    (∀ resources : TF03.Inventory, resources ≠ [] →
       (∀ e ∈ resources, lookupA TF03.resource_mappings e.1 = none) →
       (TF03.create_architecture_diagram resources).edges = [] ∧
       (TF03.create_architecture_diagram resources).nodes.length = resources.length ∧
       (TF03.create_architecture_diagram resources).nodes ≠ []) ∧
    (TF00.generate_architecture_diagram [] = none ∧
     ∀ resources : List Resource, resources ≠ [] →
       (TF00.generate_architecture_diagram resources).isSome = true) := by
  refine ⟨⟨rfl, rfl⟩, ?_, rfl, ?_⟩
  · intro resources hne hall
    have hnec := nonEmpty_unknown hne hall
    have hres_ne : resources.isEmpty = false := by
      cases hx : resources with
      | nil => exact absurd hx hne
      | cons a l => rfl
    have hne2 : (TF03.nonEmptyComponents resources).isEmpty = false := by
      rw [hnec]
      rfl
    have hlen : (allNodes [(str "other", TF03.entriesFor resources (str "other"))]).length
        = resources.length := by
      unfold allNodes
      simp [entriesFor_unknown_other hall]
    unfold TF03.create_architecture_diagram
    rw [if_neg (by rw [hres_ne]; exact Bool.false_ne_true),
        if_neg (by rw [hne2]; exact Bool.false_ne_true)]
    refine ⟨?_, ?_, ?_⟩
    · show TF03.create_logical_connections (TF03.nonEmptyComponents resources) = []
      rw [hnec]
      refine apply_patterns_singleton_nil ?_
      intro p hp
      revert hp
      revert p
      decide
    · show (allNodes (TF03.nonEmptyComponents resources)).length = resources.length
      rw [hnec]
      exact hlen
    · show allNodes (TF03.nonEmptyComponents resources) ≠ []
      rw [hnec]
      intro h0
      rw [h0] at hlen
      exact hne (List.length_eq_zero.mp hlen.symm)
  · intro resources hne
    have hf : resources.isEmpty = false := by
      cases hx : resources with
      | nil => exact absurd hx hne
      | cons a l => rfl
    unfold TF00.generate_architecture_diagram
    rw [if_neg (by rw [hf]; exact Bool.false_ne_true)]
    by_cases hc : (TF00.create_diagram_components resources).isEmpty
    · simp [hc]
    · simp [hc]

/-- C6 amended witness at a concrete all-unmapped inventory. -/
theorem c6_amended_witness :
    (allOtherInventory ≠ [] ∧
     (∀ e ∈ allOtherInventory, lookupA TF03.resource_mappings e.1 = none)) ∧
    ((TF03.create_architecture_diagram allOtherInventory).edges = [] ∧
     (TF03.create_architecture_diagram allOtherInventory).nodes.length =
       allOtherInventory.length ∧
     (TF03.create_architecture_diagram allOtherInventory).nodes ≠ []) :=
  ⟨⟨by decide, by decide⟩,
   c6_amended_placeholder_and_all_other.2.1 allOtherInventory (by decide) (by decide)⟩

/-- C7 counterexample: file 03's lexical extractor does not strip comments, so
a declaration occurring only inside a `#` line comment appears in its
inventory, while file 00's lexical extractor (which strips comments first)
returns the empty inventory on the same text. -/
theorem c7_counterexample :
    TF03.parse_with_regex commentedInput =
      [(str "aws_instance", [{ name := str "web", config := [] }])] ∧
    TF03.parse_with_regex commentedInput ≠ [] ∧
    TF00.parse_terraform_file_regex commentedInput = [] := by
  decide

/-- C7 amended: the file 00 and 01 lexical extractors strip `#` line comments
and `/* ... */` block comments before scanning: inserting a newline-terminated
line comment anywhere into a text (or an unterminated one at its end), or a
self-contained block comment after a hash-free prefix with no block-comment
opener and no trailing slash, leaves the returned inventory unchanged — so a
declaration occurring only inside such a comment never appears.  The file 04
lexical extractor (like file 03's, shown by the counterexample) performs no
comment stripping, so the commented-out declaration does appear there.  In
every variant each returned declaration carries empty attributes. -/
theorem c7_amended_comment_stripping :
    (∀ pre mid post : Str, '\n' ∉ mid →
       TF00.parse_terraform_file_regex (pre ++ '#' :: (mid ++ '\n' :: post)) =
       TF00.parse_terraform_file_regex (pre ++ '\n' :: post)) ∧
    (∀ pre mid : Str, '\n' ∉ mid →
       TF00.parse_terraform_file_regex (pre ++ '#' :: mid) =
       TF00.parse_terraform_file_regex pre) ∧
    (∀ pre mid post : Str, '#' ∉ pre → '#' ∉ mid → hasOpen pre = false →
       lastIsSlash pre = false → findClose mid = none →
       TF00.parse_terraform_file_regex (pre ++ '/' :: '*' :: (mid ++ '*' :: '/' :: post)) =
       TF00.parse_terraform_file_regex (pre ++ post)) ∧
    (∀ pre mid post : Str, '\n' ∉ mid →
       TF01.parse_terraform_with_regex (pre ++ '#' :: (mid ++ '\n' :: post)) =
       TF01.parse_terraform_with_regex (pre ++ '\n' :: post)) ∧
    (∀ pre mid post : Str, '#' ∉ pre → '#' ∉ mid → hasOpen pre = false →
       lastIsSlash pre = false → findClose mid = none →
       TF01.parse_terraform_with_regex (pre ++ '/' :: '*' :: (mid ++ '*' :: '/' :: post)) =
       TF01.parse_terraform_with_regex (pre ++ post)) ∧
    (TF04.parse_with_regex commentedInput =
       [(str "aws_instance",
         [{ name := str "web", config := [], btype := some (str "resource") }])]) ∧
    (∀ (content : Str) (r : Resource),
       r ∈ TF00.parse_terraform_file_regex content → r.config = []) ∧
    (∀ (content : Str) (r : Resource),
       r ∈ TF01.parse_terraform_with_regex content → r.config = []) ∧
    (∀ (content : Str) (e : Str × List TF03.Inst) (i : TF03.Inst),
       e ∈ TF03.parse_with_regex content → i ∈ e.2 → i.config = []) ∧
    (∀ (content : Str) (e : Str × List TF04.Inst) (i : TF04.Inst),
       e ∈ TF04.parse_with_regex content → i ∈ e.2 → i.config = []) := by
  refine ⟨?_, ?_, ?_, ?_, ?_, ?_, ?_, ?_, ?_, ?_⟩
  · intro pre mid post h
    unfold TF00.parse_terraform_file_regex
    rw [stripped_line_insert h pre post]
  · intro pre mid h
    unfold TF00.parse_terraform_file_regex
    rw [stripped_line_insert_eof h pre]
  · intro pre mid post h1 h2 ho hl hf
    unfold TF00.parse_terraform_file_regex
    rw [stripped_block_insert post h1 h2 ho hl hf]
  · intro pre mid post h
    unfold TF01.parse_terraform_with_regex
    rw [stripped_line_insert h pre post]
  · intro pre mid post h1 h2 ho hl hf
    unfold TF01.parse_terraform_with_regex
    rw [stripped_block_insert post h1 h2 ho hl hf]
  · decide
  · intro content r hr
    obtain ⟨p, _, hp⟩ := List.mem_map.mp hr
    rw [← hp]
  · intro content r hr
    obtain ⟨p, _, hp⟩ := List.mem_map.mp hr
    rw [← hp]
  · intro content e i he hi
    exact parse_with_regex_configs_nil content e he i hi
  · intro content e i he hi
    exact parse_with_regex4_configs_nil content e he i hi

/-- C7 amended witness: a line comment inserted between two declarations is
ignored — the commented declaration never appears while the surrounding
declarations are still extracted. -/
theorem c7_amended_witness :
    ('\n' ∉ str "resource \"a\" \"b\" \x7b" ∧
     TF00.parse_terraform_file_regex
       (str "resource \"x\" \"y\" \x7b" ++ '#' :: (str "resource \"a\" \"b\" \x7b" ++
        '\n' :: str "resource \"z\" \"w\" \x7b")) =
     TF00.parse_terraform_file_regex
       (str "resource \"x\" \"y\" \x7b" ++ '\n' :: str "resource \"z\" \"w\" \x7b")) ∧
    (TF00.parse_terraform_file_regex
       (str "resource \"x\" \"y\" \x7b" ++ '\n' :: str "resource \"z\" \"w\" \x7b") =
     [{ type := str "x", name := str "y", config := [] },
      { type := str "z", name := str "w", config := [] }]) :=
  ⟨⟨by decide,
    c7_amended_comment_stripping.1 (str "resource \"x\" \"y\" \x7b")
      (str "resource \"a\" \"b\" \x7b") (str "resource \"z\" \"w\" \x7b") (by decide)⟩,
   by decide⟩

/-- C8 counterexample: merging two file inventories that share a resource type
and then classifying does not give the concatenation of the per-file
classifications — the shared type's later instances are appended at the
earlier file's dict position, reordering the category list. -/
theorem c8_counterexample :
    ¬ (categoryOfM TF00.category_map (flattenInv (TF03.mergeResources mergeF1 mergeF2))
        (str "compute") =
       categoryOfM TF00.category_map (flattenInv mergeF1) (str "compute") ++
       categoryOfM TF00.category_map (flattenInv mergeF2) (str "compute")) := by
  decide

/-- C8 amended: merging two per-type inventories (file 03's dict merge) and
then classifying with file 00's classifier yields, in every category, a
permutation of the concatenation of the two files' classifications — the same
declarations, with each type's instances still in file order, but category
lists are grouped by first-seen type rather than strict file order. -/
theorem c8_amended_merge_classify_permutation :
    ∀ (f1 f2 : TF03.Inventory) (c : Str),
      (categoryOfM TF00.category_map (flattenInv (TF03.mergeResources f1 f2)) c).Perm
        (categoryOfM TF00.category_map (flattenInv f1) c ++
         categoryOfM TF00.category_map (flattenInv f2) c) := by
  intro f1 f2 c
  unfold categoryOfM
  rw [← List.filter_append]
  exact (flattenInv_merge f1 f2).filter _
